import Mathlib

/-!
# ncnn `UnaryOp` layer (`src/layer/unaryop.cpp`)

A shallow embedding of the element-wise unary layer and theorems about it.

Conventions of the embedding.

* `int` values are integers; where the source computes in `int`, the
  result is reduced to the signed 32-bit range by `wrap32`.
* The element type `float` and the `<math.h>` functions applied to it are
  a parameter (`MathOps`): nothing is assumed about them. Where a statement
  depends on the values of `float`, the parameter is IEEE-754 single
  precision (`Binary32`, `binary32Ops`): a value is its bit pattern, `fabs`
  and the unary minus act on the sign bit, the product and `sqrt` are
  rounded to the nearest value, a tie to the even one.
* The enumerators `Operation_ABS` ... `Operation_RECIPROCAL` are declared in
  `unaryop.h`, which is not part of the source; their values are a
  parameter (`OperationCodes`).
* A pointer into a `Mat` is the list of its elements; an access beyond the
  end of the list is undefined behaviour, written `none`.
* `forward` takes the previous state of `top_blob` as an argument and
  returns its new state next to the status; the two blobs are distinct
  objects.
* Where sharing of storage matters, the same functions are embedded a second
  time over a memory of storage blocks (`unary_op_mem`, `forward_mem`);
  `forward_mem_agrees` relates the two embeddings.
* An `int` occupies four bytes of memory, least significant byte first, as
  on the hosts the library is built for.
-/

namespace ncnn

/-! ## Machine integers -/

/-- Reduction of an integer to `int`: the representative of `x` modulo
`2^32` in the signed 32-bit range `[-2^31, 2^31)`, by cases on the sign of
`x`. `wrap32_eq_emod` gives the closed form
`(x + 2^31) % 2^32 - 2^31`. -/
def wrap32 : Int → Int
  | Int.ofNat n =>
    if n % 4294967296 < 2147483648 then Int.ofNat (n % 4294967296)
    else Int.negSucc (4294967295 - n % 4294967296)
  | Int.negSucc n =>
    if n % 4294967296 < 2147483648 then Int.negSucc (n % 4294967296)
    else Int.ofNat (4294967295 - n % 4294967296)

/-- The product of two `int` values as the machine computes it. -/
def mul32 (x y : Int) : Int := wrap32 (x * y)

/-! ## The element type and `<math.h>` -/

/-- The element type `T` with the operators and `<math.h>` functions the
functors of `unaryop.cpp` apply to it. -/
structure MathOps (α : Type) where
  fabs : α → α
  neg : α → α
  floor : α → α
  ceil : α → α
  mul : α → α → α
  sqrt : α → α
  div : α → α → α
  one : α
  exp : α → α
  log : α → α
  sin : α → α
  cos : α → α
  tan : α → α
  asin : α → α
  acos : α → α
  atan : α → α

section Functors

variable {α : Type} (m : MathOps α)

/-- `unary_op_abs::operator()`: `fabs(x)`. -/
def unary_op_abs (x : α) : α := m.fabs x

/-- `unary_op_neg::operator()`: `-x`. -/
def unary_op_neg (x : α) : α := m.neg x

/-- `unary_op_floor::operator()`: `floor(x)`. -/
def unary_op_floor (x : α) : α := m.floor x

/-- `unary_op_ceil::operator()`: `ceil(x)`. -/
def unary_op_ceil (x : α) : α := m.ceil x

/-- `unary_op_square::operator()`: `x * x`. -/
def unary_op_square (x : α) : α := m.mul x x

/-- `unary_op_sqrt::operator()`: `sqrt(x)`. -/
def unary_op_sqrt (x : α) : α := m.sqrt x

/-- `unary_op_rsqrt::operator()`: `1.f / sqrt(x)`. -/
def unary_op_rsqrt (x : α) : α := m.div m.one (m.sqrt x)

/-- `unary_op_exp::operator()`: `exp(x)`. -/
def unary_op_exp (x : α) : α := m.exp x

/-- `unary_op_log::operator()`: `log(x)`. -/
def unary_op_log (x : α) : α := m.log x

/-- `unary_op_sin::operator()`: `sin(x)`. -/
def unary_op_sin (x : α) : α := m.sin x

/-- `unary_op_cos::operator()`: `cos(x)`. -/
def unary_op_cos (x : α) : α := m.cos x

/-- `unary_op_tan::operator()`: `tan(x)`. -/
def unary_op_tan (x : α) : α := m.tan x

/-- `unary_op_asin::operator()`: `asin(x)`. -/
def unary_op_asin (x : α) : α := m.asin x

/-- `unary_op_acos::operator()`: `acos(x)`. -/
def unary_op_acos (x : α) : α := m.acos x

/-- `unary_op_atan::operator()`: `atan(x)`. -/
def unary_op_atan (x : α) : α := m.atan x

/-- `unary_op_reciprocal::operator()`: `1.f / x`. -/
def unary_op_reciprocal (x : α) : α := m.div m.one x

end Functors

/-! ## Operation codes -/

/-- The enumerators of `unaryop.h` that `unaryop.cpp` compares `op_type`
with. The header is not part of the source, so their values are a
parameter. -/
structure OperationCodes where
  Operation_ABS : Int
  Operation_NEG : Int
  Operation_FLOOR : Int
  Operation_CEIL : Int
  Operation_SQUARE : Int
  Operation_SQRT : Int
  Operation_RSQRT : Int
  Operation_EXP : Int
  Operation_LOG : Int
  Operation_SIN : Int
  Operation_COS : Int
  Operation_TAN : Int
  Operation_ASIN : Int
  Operation_ACOS : Int
  Operation_ATAN : Int
  Operation_RECIPROCAL : Int

/-- The operations of the spec's unary function table. -/
inductive Operation where
  | abs | neg | floor | ceil | square | sqrt | rsqrt | exp | log
  | sin | cos | tan | asin | acos | atan | reciprocal
  deriving DecidableEq, Repr

/-- The enumerator that stands for an operation of the table. -/
def OperationCodes.code (k : OperationCodes) : Operation → Int
  | .abs => k.Operation_ABS
  | .neg => k.Operation_NEG
  | .floor => k.Operation_FLOOR
  | .ceil => k.Operation_CEIL
  | .square => k.Operation_SQUARE
  | .sqrt => k.Operation_SQRT
  | .rsqrt => k.Operation_RSQRT
  | .exp => k.Operation_EXP
  | .log => k.Operation_LOG
  | .sin => k.Operation_SIN
  | .cos => k.Operation_COS
  | .tan => k.Operation_TAN
  | .asin => k.Operation_ASIN
  | .acos => k.Operation_ACOS
  | .atan => k.Operation_ATAN
  | .reciprocal => k.Operation_RECIPROCAL

/-- The position of an operation in the spec's unary function table. -/
def Operation.index : Operation → Nat
  | .abs => 0 | .neg => 1 | .floor => 2 | .ceil => 3 | .square => 4 | .sqrt => 5
  | .rsqrt => 6 | .exp => 7 | .log => 8 | .sin => 9 | .cos => 10 | .tan => 11
  | .asin => 12 | .acos => 13 | .atan => 14 | .reciprocal => 15

/-- The fifteen enumerators `forward` compares `op_type` with, in the order
of the comparisons: the operation codes the allocating path supports. -/
def OperationCodes.forwardCodes (k : OperationCodes) : List Int :=
  [k.Operation_ABS, k.Operation_NEG, k.Operation_FLOOR, k.Operation_CEIL,
   k.Operation_SQUARE, k.Operation_SQRT, k.Operation_RSQRT, k.Operation_EXP,
   k.Operation_LOG, k.Operation_SIN, k.Operation_COS, k.Operation_TAN,
   k.Operation_ASIN, k.Operation_ACOS, k.Operation_ATAN]

/-- The sixteen enumerators `forward_inplace` compares `op_type` with, in
the order of the comparisons: the operation codes the in-place path
supports. -/
def OperationCodes.inplaceCodes (k : OperationCodes) : List Int :=
  k.forwardCodes ++ [k.Operation_RECIPROCAL]

/-- The enumerators are pairwise different, as the spec's data model has
it: an operation code identifies exactly one unary function. -/
def OperationCodes.Distinct (k : OperationCodes) : Prop := k.inplaceCodes.Nodup

instance (k : OperationCodes) : Decidable k.Distinct := by
  unfold OperationCodes.Distinct; infer_instance

/-- Modelled from the spec: the values of the enumerators of `unaryop.h`
(not part of the source), numbered from 0 in the order of the spec's unary
function table, as an enumeration without initialisers is. Used for
concrete instances only. -/
def tableCodes : OperationCodes :=
  { Operation_ABS := 0, Operation_NEG := 1, Operation_FLOOR := 2,
    Operation_CEIL := 3, Operation_SQUARE := 4, Operation_SQRT := 5,
    Operation_RSQRT := 6, Operation_EXP := 7, Operation_LOG := 8,
    Operation_SIN := 9, Operation_COS := 10, Operation_TAN := 11,
    Operation_ASIN := 12, Operation_ACOS := 13, Operation_ATAN := 14,
    Operation_RECIPROCAL := 15 }

/-- The spec's unary function table: the formula of each operation. -/
def formula {α : Type} (m : MathOps α) : Operation → α → α
  | .abs => fun x => m.fabs x
  | .neg => fun x => m.neg x
  | .floor => fun x => m.floor x
  | .ceil => fun x => m.ceil x
  | .square => fun x => m.mul x x
  | .sqrt => fun x => m.sqrt x
  | .rsqrt => fun x => m.div m.one (m.sqrt x)
  | .exp => fun x => m.exp x
  | .log => fun x => m.log x
  | .sin => fun x => m.sin x
  | .cos => fun x => m.cos x
  | .tan => fun x => m.tan x
  | .asin => fun x => m.asin x
  | .acos => fun x => m.acos x
  | .atan => fun x => m.atan x
  | .reciprocal => fun x => m.div m.one x

/-! ## Tensors -/

/-- Modelled from the spec: the tensor `Mat` (declared in `mat.h`, not part
of the source): dimensionality, per-axis extents and a view of the
contiguous storage. An empty list stands for a tensor without storage. -/
structure Mat (α : Type) where
  dims : Int
  w : Int
  h : Int
  c : Int
  data : List α
  deriving DecidableEq

/-- Modelled from the spec: `Mat::total()` (declared in `mat.h`), the total
element count of the buffer. -/
def Mat.total {α : Type} (a : Mat α) : Nat := a.data.length

/-- Modelled from the spec: `Mat::empty()` (declared in `mat.h`): the tensor
holds no element. -/
def Mat.empty {α : Type} (a : Mat α) : Bool := a.data.isEmpty

/-- The default-constructed tensor: no dimensions, no storage. -/
def Mat.nil (α : Type) : Mat α := { dims := 0, w := 0, h := 0, c := 0, data := [] }

/-- Modelled from the spec: the tensor allocator behind `Mat::create` (not
part of the source). `succeeds n` tells whether a request for `n` elements
can be satisfied and `initial i` is the allocation-time value of element `i`
of fresh storage. -/
structure Allocator (α : Type) where
  succeeds : Nat → Bool
  initial : Nat → α

/-- Fresh storage for `n` elements, or no storage when the request cannot
be satisfied. -/
def Allocator.storage {α : Type} (al : Allocator α) (n : Nat) : List α :=
  if al.succeeds n then (List.range n).map al.initial else []

/-- Modelled from the spec: `Mat::create(w)` (declared in `mat.h`): a 1-D
tensor of width `w`, unused extents 1, with fresh storage for the product
of the extents. -/
def Mat.create1 {α : Type} (al : Allocator α) (w : Int) : Mat α :=
  { dims := 1, w := w, h := 1, c := 1, data := al.storage w.toNat }

/-- Modelled from the spec: `Mat::create(w, h)` (declared in `mat.h`). -/
def Mat.create2 {α : Type} (al : Allocator α) (w h : Int) : Mat α :=
  { dims := 2, w := w, h := h, c := 1, data := al.storage (w * h).toNat }

/-- Modelled from the spec: `Mat::create(w, h, c)` (declared in `mat.h`). -/
def Mat.create3 {α : Type} (al : Allocator α) (w h c : Int) : Mat α :=
  { dims := 3, w := w, h := h, c := c, data := al.storage (w * h * c).toNat }

/-- A tensor of rank 1, 2 or 3 as the spec's data model describes it: the
extents are non-negative `int` values, the extents of unused axes are 1 and
the storage holds as many elements as the product of the extents. -/
def Mat.WellFormed {α : Type} (a : Mat α) : Prop :=
  ((a.dims = 1 ∧ a.h = 1 ∧ a.c = 1) ∨ (a.dims = 2 ∧ a.c = 1) ∨ a.dims = 3) ∧
  (0 ≤ a.w ∧ a.w < 2147483648) ∧ (0 ≤ a.h ∧ a.h < 2147483648) ∧
  (0 ≤ a.c ∧ a.c < 2147483648) ∧
  (a.data.length : Int) = a.w * a.h * a.c

instance {α : Type} (a : Mat α) : Decidable a.WellFormed := by
  unfold Mat.WellFormed; infer_instance

/-! ## The element loops -/

/-- One iteration of the loop of `unary_op`: `outptr[i] = op(ptr[i])`. -/
def unary_op_step {α : Type} (op : α → α) (ptr : List α) (outptr : List α) (i : Nat) :
    Option (List α) :=
  match ptr[i]? with
  | none => none
  | some x => if i < outptr.length then some (outptr.set i (op x)) else none

/-- One iteration of the loop of `unary_op_inplace`: `ptr[i] = op(ptr[i])`. -/
def unary_op_inplace_step {α : Type} (op : α → α) (ptr : List α) (i : Nat) :
    Option (List α) :=
  match ptr[i]? with
  | none => none
  | some x => some (ptr.set i (op x))

/-- The iterations of a loop over the indices `order`, one after the other,
on the storage written by the loop. -/
def run_loop {α : Type} (step : List α → Nat → Option (List α)) :
    List Nat → List α → Option (List α)
  | [], out => some out
  | i :: rest, out =>
    match step out i with
    | none => none
    | some out1 => run_loop step rest out1

/-- The indices of `for (int i=0; i<size; i++)` in ascending order. -/
def loop_indices (size : Int) : List Nat := List.range size.toNat

/-- The part of `unary_op` after the output has been created: the loop and
`return 0`. -/
def unary_op_tail {α : Type} (op : α → α) (a b : Mat α) (size : Int) :
    Option (Int × Mat α) :=
  match run_loop (unary_op_step op a.data) (loop_indices size) b.data with
  | none => none
  | some out => some (0, { b with data := out })

/-- `unary_op<Op>(a, b)`. -/
def unary_op {α : Type} (al : Allocator α) (op : α → α) (a b : Mat α) :
    Option (Int × Mat α) :=
  let w := a.w
  let h := a.h
  let channels := a.c
  let size := mul32 (mul32 w h) channels
  if a.dims = 3 then
    let b1 := Mat.create3 al w h channels
    if b1.empty then some (-100, b1) else unary_op_tail op a b1 size
  else if a.dims = 2 then
    let b1 := Mat.create2 al w h
    if b1.empty then some (-100, b1) else unary_op_tail op a b1 size
  else if a.dims = 1 then
    let b1 := Mat.create1 al w
    if b1.empty then some (-100, b1) else unary_op_tail op a b1 size
  else
    unary_op_tail op a b size

/-- The output tensor right after the `b.create(...)` call of `unary_op`, for
an input of rank 1, 2 or 3: the tensor whose emptiness `unary_op` tests. -/
def unary_op_created {α : Type} (al : Allocator α) (a : Mat α) : Mat α :=
  if a.dims = 3 then Mat.create3 al a.w a.h a.c
  else if a.dims = 2 then Mat.create2 al a.w a.h
  else Mat.create1 al a.w

/-- `unary_op_inplace<Op>(a)`. -/
def unary_op_inplace {α : Type} (op : α → α) (a : Mat α) : Option (Int × Mat α) :=
  let size := wrap32 (a.total : Int)
  match run_loop (unary_op_inplace_step op) (loop_indices size) a.data with
  | none => none
  | some out => some (0, { a with data := out })

/-! ## The layer -/

/-- The layer object: the flags set by the constructor and the operation
code. -/
structure UnaryOp where
  one_blob_only : Bool
  support_inplace : Bool
  op_type : Int
  deriving DecidableEq, Repr

/-- `UnaryOp::UnaryOp()`; `op_type` is not initialised and keeps the value
`garbage`. -/
def UnaryOp.ctor (garbage : Int) : UnaryOp :=
  { one_blob_only := true, support_inplace := true, op_type := garbage }

/-- `UnaryOp::forward(bottom_blob, top_blob)`. -/
def UnaryOp.forward {α : Type} (k : OperationCodes) (m : MathOps α) (al : Allocator α)
    (self : UnaryOp) (bottom_blob top_blob : Mat α) : Option (Int × Mat α) :=
  if self.op_type = k.Operation_ABS then
    unary_op al (unary_op_abs m) bottom_blob top_blob
  else if self.op_type = k.Operation_NEG then
    unary_op al (unary_op_neg m) bottom_blob top_blob
  else if self.op_type = k.Operation_FLOOR then
    unary_op al (unary_op_floor m) bottom_blob top_blob
  else if self.op_type = k.Operation_CEIL then
    unary_op al (unary_op_ceil m) bottom_blob top_blob
  else if self.op_type = k.Operation_SQUARE then
    unary_op al (unary_op_square m) bottom_blob top_blob
  else if self.op_type = k.Operation_SQRT then
    unary_op al (unary_op_sqrt m) bottom_blob top_blob
  else if self.op_type = k.Operation_RSQRT then
    unary_op al (unary_op_rsqrt m) bottom_blob top_blob
  else if self.op_type = k.Operation_EXP then
    unary_op al (unary_op_exp m) bottom_blob top_blob
  else if self.op_type = k.Operation_LOG then
    unary_op al (unary_op_log m) bottom_blob top_blob
  else if self.op_type = k.Operation_SIN then
    unary_op al (unary_op_sin m) bottom_blob top_blob
  else if self.op_type = k.Operation_COS then
    unary_op al (unary_op_cos m) bottom_blob top_blob
  else if self.op_type = k.Operation_TAN then
    unary_op al (unary_op_tan m) bottom_blob top_blob
  else if self.op_type = k.Operation_ASIN then
    unary_op al (unary_op_asin m) bottom_blob top_blob
  else if self.op_type = k.Operation_ACOS then
    unary_op al (unary_op_acos m) bottom_blob top_blob
  else if self.op_type = k.Operation_ATAN then
    unary_op al (unary_op_atan m) bottom_blob top_blob
  else
    some (0, top_blob)

/-- `UnaryOp::forward_inplace(bottom_top_blob)`. -/
def UnaryOp.forward_inplace {α : Type} (k : OperationCodes) (m : MathOps α)
    (self : UnaryOp) (bottom_top_blob : Mat α) : Option (Int × Mat α) :=
  if self.op_type = k.Operation_ABS then
    unary_op_inplace (unary_op_abs m) bottom_top_blob
  else if self.op_type = k.Operation_NEG then
    unary_op_inplace (unary_op_neg m) bottom_top_blob
  else if self.op_type = k.Operation_FLOOR then
    unary_op_inplace (unary_op_floor m) bottom_top_blob
  else if self.op_type = k.Operation_CEIL then
    unary_op_inplace (unary_op_ceil m) bottom_top_blob
  else if self.op_type = k.Operation_SQUARE then
    unary_op_inplace (unary_op_square m) bottom_top_blob
  else if self.op_type = k.Operation_SQRT then
    unary_op_inplace (unary_op_sqrt m) bottom_top_blob
  else if self.op_type = k.Operation_RSQRT then
    unary_op_inplace (unary_op_rsqrt m) bottom_top_blob
  else if self.op_type = k.Operation_EXP then
    unary_op_inplace (unary_op_exp m) bottom_top_blob
  else if self.op_type = k.Operation_LOG then
    unary_op_inplace (unary_op_log m) bottom_top_blob
  else if self.op_type = k.Operation_SIN then
    unary_op_inplace (unary_op_sin m) bottom_top_blob
  else if self.op_type = k.Operation_COS then
    unary_op_inplace (unary_op_cos m) bottom_top_blob
  else if self.op_type = k.Operation_TAN then
    unary_op_inplace (unary_op_tan m) bottom_top_blob
  else if self.op_type = k.Operation_ASIN then
    unary_op_inplace (unary_op_asin m) bottom_top_blob
  else if self.op_type = k.Operation_ACOS then
    unary_op_inplace (unary_op_acos m) bottom_top_blob
  else if self.op_type = k.Operation_ATAN then
    unary_op_inplace (unary_op_atan m) bottom_top_blob
  else if self.op_type = k.Operation_RECIPROCAL then
    unary_op_inplace (unary_op_reciprocal m) bottom_top_blob
  else
    some (0, bottom_top_blob)

/-! ## Loading the operation code -/

/-- The `int` stored in four bytes of memory, least significant byte
first. -/
def int_of_bytes (b0 b1 b2 b3 : Nat) : Int :=
  wrap32 (Int.ofNat (b0 % 256 + 256 * (b1 % 256) + 65536 * (b2 % 256) + 16777216 * (b3 % 256)))

/-- The four bytes of an `int` in memory, least significant byte first. -/
def bytes_of_int (x : Int) : List Nat :=
  let u := (x % 4294967296).toNat
  [u % 256, u / 256 % 256, u / 65536 % 256, u / 16777216 % 256]

/-- The first four bytes of a list as an `int`. -/
def int_of_list : List Nat → Int
  | b0 :: b1 :: b2 :: b3 :: _ => int_of_bytes b0 b1 b2 b3
  | _ => 0

/-- `UnaryOp::load_param(const unsigned char*& mem)`: `mem` points at
position `pos` of the buffer `buf`; the result is the status, the layer and
the new position. Reading beyond the buffer is undefined behaviour. -/
def UnaryOp.load_param_mem (self : UnaryOp) (buf : List Nat) (pos : Nat) :
    Option (Int × UnaryOp × Nat) :=
  if pos + 4 ≤ buf.length then
    some (0, { self with op_type := int_of_list (buf.drop pos) }, pos + 4)
  else none

/-- `fread(&op_type, sizeof(int), 1, fp)` on the unread bytes `fp` of a
stream: the new value of `op_type`, the bytes left and the number of items
read. A stream that ends early overwrites only the leading bytes of
`op_type`. -/
def fread_int (op_type : Int) (fp : List Nat) : Int × List Nat × Nat :=
  if 4 ≤ fp.length then (int_of_list fp, fp.drop 4, 1)
  else (int_of_list (fp ++ (bytes_of_int op_type).drop fp.length), [], 0)

/-- `UnaryOp::load_param_bin(FILE* paramfp)`: the status, the layer and the
unread bytes of the stream. The result of `fread` is not looked at. -/
def UnaryOp.load_param_bin (self : UnaryOp) (paramfp : List Nat) :
    Int × UnaryOp × List Nat :=
  let r := fread_int self.op_type paramfp
  (0, { self with op_type := r.1 }, r.2.1)

/-- The white-space characters `fscanf` skips, as character codes. -/
def isspace (ch : Nat) : Bool := ch == 32 || (9 ≤ ch && ch ≤ 13)

/-- The decimal digits, as character codes. -/
def isdigit (ch : Nat) : Bool := 48 ≤ ch && ch ≤ 57

/-- The number written by a list of decimal digits after the value `acc`. -/
def digits_value (acc : Nat) : List Nat → Nat
  | [] => acc
  | d :: ds => digits_value (10 * acc + (d - 48)) ds

/-- `fscanf(fp, "%d", &x)` on the unread characters `fp` of a stream: the
return value (1 when an integer was converted, 0 on a matching failure, also
that of a sign with no digit after it, -1 for `EOF` when the stream ends
before a number starts), the integer converted and the characters left. The
digits are converted as `strtol` does with a 64-bit `long`: a number beyond
the range of `long` is replaced by the nearest bound; the `long` is then
reduced to `int`. -/
def fscanf_d (fp : List Nat) : Int × Int × List Nat :=
  match fp.dropWhile isspace with
  | [] => (-1, 0, [])
  | ch :: t =>
    let body := if ch == 45 || ch == 43 then t else ch :: t
    let digits := body.takeWhile isdigit
    let rest := body.dropWhile isdigit
    if digits.isEmpty then (0, 0, body)
    else if ch == 45 then
      (1, wrap32 (-(Int.ofNat (min (digits_value 0 digits) 9223372036854775808))), rest)
    else (1, wrap32 (Int.ofNat (min (digits_value 0 digits) 9223372036854775807)), rest)

/-- `UnaryOp::load_param(FILE* paramfp)`: the status, the layer and the
unread characters of the stream. The message printed on `stderr` is not
modelled. -/
def UnaryOp.load_param (self : UnaryOp) (paramfp : List Nat) : Int × UnaryOp × List Nat :=
  let r := fscanf_d paramfp
  let nscan := r.1
  if nscan ≠ 1 then (-1, self, r.2.2)
  else (0, { self with op_type := r.2.1 }, r.2.2)

/-! ## Concrete instances -/

/-- The integer square root, by search. -/
def isqrt (n : Nat) : Nat := ((List.range (n + 1)).filter (fun r => r * r ≤ n)).length - 1

/-- The integer binary logarithm, by search. -/
def ilog2 (n : Nat) : Nat := ((List.range n).filter (fun r => 2 ^ (r + 1) ≤ n)).length

/-- An instance of the element type for concrete evaluation: integers, with
integer counterparts of the operators and functions. -/
def intOps : MathOps Int :=
  { fabs := fun x => |x|, neg := fun x => -x, floor := fun x => x, ceil := fun x => x,
    mul := fun x y => x * y, sqrt := fun x => Int.ofNat (isqrt x.toNat),
    div := fun x y => x / y, one := 1,
    exp := fun x => 2 ^ x.toNat, log := fun x => Int.ofNat (ilog2 x.toNat),
    sin := fun _ => 0, cos := fun _ => 1, tan := fun _ => 0,
    asin := fun _ => 0, acos := fun _ => 0, atan := fun _ => 0 }

/-- An allocator that satisfies every request and hands out storage filled
with `v`. -/
def fillAllocator {α : Type} (v : α) : Allocator α :=
  { succeeds := fun _ => true, initial := fun _ => v }

/-- An allocator that satisfies no request. -/
def failAllocator {α : Type} (v : α) : Allocator α :=
  { succeeds := fun _ => false, initial := fun _ => v }

/-- A 3-D tensor of `1024 * 1024 * 2048 = 2^31` elements, all 1. -/
def hugeTensor : Mat Int :=
  { dims := 3, w := 1024, h := 1024, c := 2048, data := List.replicate 2147483648 1 }

/-- A 2-D buffer of `65536 * 32768 = 2^31` elements, all 1. -/
def hugeBuffer : Mat Int :=
  { dims := 2, w := 65536, h := 32768, c := 1, data := List.replicate 2147483648 1 }

/-- A 2-D buffer of `32768 * 65536 = 2^31` elements, all 2. -/
def hugeBufferOfTwos : Mat Int :=
  { dims := 2, w := 32768, h := 65536, c := 1, data := List.replicate 2147483648 2 }

/-! ## The spec's reading of the operation-code field -/

/-- The spec's words for the binary field: the signed 32-bit integer that four
bytes encode little-endian, in two's complement. -/
def le_int32 (b0 b1 b2 b3 : Nat) : Int :=
  if b3 < 128 then Int.ofNat (b0 + 256 * b1 + 65536 * b2 + 16777216 * b3)
  else Int.ofNat (b0 + 256 * b1 + 65536 * b2 + 16777216 * b3) - 4294967296

/-! ## The element loops in another order -/

/-- The loop and `return 0` of `unary_op` with the iterations executed in
the order `order` instead of ascending. -/
def unary_op_tail_in_order {α : Type} (op : α → α) (a b : Mat α) (order : List Nat) :
    Option (Int × Mat α) :=
  match run_loop (unary_op_step op a.data) order b.data with
  | none => none
  | some out => some (0, { b with data := out })

/-- The loop and `return 0` of `unary_op_inplace` with the iterations
executed in the order `order` instead of ascending. -/
def unary_op_inplace_in_order {α : Type} (op : α → α) (a : Mat α) (order : List Nat) :
    Option (Int × Mat α) :=
  match run_loop (unary_op_inplace_step op) order a.data with
  | none => none
  | some out => some (0, { a with data := out })

/-! ## Tensors that share memory -/

/-- Memory: the storage blocks allocated so far, by block number. -/
abbrev Memory (α : Type) := List (List α)

/-- A tensor whose storage is a block of memory: the shape, and in `data` the
number of the block, or nothing for the null pointer. Two tensors with the
same block share their elements. -/
structure MatRef where
  dims : Int
  w : Int
  h : Int
  c : Int
  data : Option Nat
  deriving DecidableEq, Repr

/-- The tensor a reference stands for in a memory: its shape with the
elements of its block; no tensor when the block does not exist. -/
def MatRef.read {α : Type} (r : MatRef) (mem : Memory α) : Option (Mat α) :=
  match r.data with
  | none => some { dims := r.dims, w := r.w, h := r.h, c := r.c, data := [] }
  | some p =>
    match mem[p]? with
    | none => none
    | some d => some { dims := r.dims, w := r.w, h := r.h, c := r.c, data := d }

/-- A created tensor placed in memory: its storage becomes a new block behind
the existing ones, and a tensor without storage gets the null pointer. The
blocks allocated before stay where they are. -/
def MatRef.place {α : Type} (t : Mat α) (mem : Memory α) : MatRef × Memory α :=
  if t.empty then ({ dims := t.dims, w := t.w, h := t.h, c := t.c, data := none }, mem)
  else ({ dims := t.dims, w := t.w, h := t.h, c := t.c, data := some mem.length },
    mem ++ [t.data])

/-- One iteration of the loop of `unary_op` on memory:
`outptr[i] = op(ptr[i])`, with `ptr` and `outptr` pointing at blocks that may
be the same. A null or dangling pointer is undefined behaviour. -/
def unary_op_mem_step {α : Type} (op : α → α) (ptr outptr : Option Nat) (mem : Memory α)
    (i : Nat) : Option (Memory α) :=
  match ptr, outptr with
  | some pa, some pb =>
    match mem[pa]?, mem[pb]? with
    | some src, some dst =>
      match unary_op_step op src dst i with
      | none => none
      | some out => some (mem.set pb out)
    | _, _ => none
  | _, _ => none

/-- The loop and `return 0` of `unary_op` on memory. -/
def unary_op_mem_tail {α : Type} (op : α → α) (a b : MatRef) (mem : Memory α) (size : Int) :
    Option (Int × MatRef × Memory α) :=
  match run_loop (unary_op_mem_step op a.data b.data) (loop_indices size) mem with
  | none => none
  | some mem1 => some (0, b, mem1)

/-- `unary_op<Op>(a, b)` on memory: the status, the output tensor and the
memory after the call. -/
def unary_op_mem {α : Type} (al : Allocator α) (op : α → α) (a b : MatRef) (mem : Memory α) :
    Option (Int × MatRef × Memory α) :=
  let w := a.w
  let h := a.h
  let channels := a.c
  let size := mul32 (mul32 w h) channels
  if a.dims = 3 then
    let r := MatRef.place (Mat.create3 al w h channels) mem
    if r.1.data.isNone then some (-100, r.1, r.2) else unary_op_mem_tail op a r.1 r.2 size
  else if a.dims = 2 then
    let r := MatRef.place (Mat.create2 al w h) mem
    if r.1.data.isNone then some (-100, r.1, r.2) else unary_op_mem_tail op a r.1 r.2 size
  else if a.dims = 1 then
    let r := MatRef.place (Mat.create1 al w) mem
    if r.1.data.isNone then some (-100, r.1, r.2) else unary_op_mem_tail op a r.1 r.2 size
  else
    unary_op_mem_tail op a b mem size

/-- What a call of `UnaryOp::forward` can see: the layer, the two blobs and
the memory their elements live in. -/
structure ForwardState (α : Type) where
  self : UnaryOp
  bottom_blob : MatRef
  top_blob : MatRef
  mem : Memory α
  deriving DecidableEq

/-- The call `unary_op<Op>(bottom_blob, top_blob)` inside `forward`: the
layer and `bottom_blob` are `const`, `top_blob` and the memory are what the
call leaves behind. -/
def unary_op_call {α : Type} (al : Allocator α) (op : α → α) (s : ForwardState α) :
    Option (Int × ForwardState α) :=
  match unary_op_mem al op s.bottom_blob s.top_blob s.mem with
  | none => none
  | some r => some (r.1, { s with top_blob := r.2.1, mem := r.2.2 })

/-- `UnaryOp::forward(bottom_blob, top_blob)` on memory: the status and the
state after the call. -/
def UnaryOp.forward_mem {α : Type} (k : OperationCodes) (m : MathOps α) (al : Allocator α)
    (s : ForwardState α) : Option (Int × ForwardState α) :=
  if s.self.op_type = k.Operation_ABS then
    unary_op_call al (unary_op_abs m) s
  else if s.self.op_type = k.Operation_NEG then
    unary_op_call al (unary_op_neg m) s
  else if s.self.op_type = k.Operation_FLOOR then
    unary_op_call al (unary_op_floor m) s
  else if s.self.op_type = k.Operation_CEIL then
    unary_op_call al (unary_op_ceil m) s
  else if s.self.op_type = k.Operation_SQUARE then
    unary_op_call al (unary_op_square m) s
  else if s.self.op_type = k.Operation_SQRT then
    unary_op_call al (unary_op_sqrt m) s
  else if s.self.op_type = k.Operation_RSQRT then
    unary_op_call al (unary_op_rsqrt m) s
  else if s.self.op_type = k.Operation_EXP then
    unary_op_call al (unary_op_exp m) s
  else if s.self.op_type = k.Operation_LOG then
    unary_op_call al (unary_op_log m) s
  else if s.self.op_type = k.Operation_SIN then
    unary_op_call al (unary_op_sin m) s
  else if s.self.op_type = k.Operation_COS then
    unary_op_call al (unary_op_cos m) s
  else if s.self.op_type = k.Operation_TAN then
    unary_op_call al (unary_op_tan m) s
  else if s.self.op_type = k.Operation_ASIN then
    unary_op_call al (unary_op_asin m) s
  else if s.self.op_type = k.Operation_ACOS then
    unary_op_call al (unary_op_acos m) s
  else if s.self.op_type = k.Operation_ATAN then
    unary_op_call al (unary_op_atan m) s
  else
    some (0, s)

/-! ## Single precision -/

/-- A `float` as the three fields of its IEEE-754 binary32 bit pattern:
the sign bit, the eight bits of the biased exponent and the twenty-three
bits of the fraction. Every value of the type is one of the `2^32`
patterns. -/
structure Binary32 where
  sign : Bool
  exponent : Fin 256
  mantissa : Fin 8388608
  deriving DecidableEq

/-- The pattern whose low thirty-one bits are `mag`, with sign bit `s`. -/
def Binary32.ofMagnitude (s : Bool) (mag : Nat) : Binary32 :=
  { sign := s
    exponent := ⟨mag / 8388608 % 256, Nat.mod_lt _ (by decide)⟩
    mantissa := ⟨mag % 8388608, Nat.mod_lt _ (by decide)⟩ }

/-- The zero of sign `s`. -/
def Binary32.zero (s : Bool) : Binary32 := Binary32.ofMagnitude s 0

/-- The infinity of sign `s`. -/
def Binary32.inf (s : Bool) : Binary32 := Binary32.ofMagnitude s 2139095040

/-- The quiet NaN an invalid operation produces. The standard leaves the
sign and the payload of a NaN result to the implementation; no statement
below depends on them. -/
def Binary32.nan : Binary32 := Binary32.ofMagnitude false 2143289344

/-- A NaN: exponent field all ones, fraction not zero. -/
def Binary32.isNaN (x : Binary32) : Bool :=
  decide (x.exponent.val = 255) && decide (x.mantissa.val ≠ 0)

/-- An infinity: exponent field all ones, fraction zero. -/
def Binary32.isInf (x : Binary32) : Bool :=
  decide (x.exponent.val = 255) && decide (x.mantissa.val = 0)

/-- A zero of either sign. -/
def Binary32.isZero (x : Binary32) : Bool :=
  decide (x.exponent.val = 0) && decide (x.mantissa.val = 0)

/-- A finite value: neither an infinity nor a NaN. -/
def Binary32.isFinite (x : Binary32) : Bool := decide (x.exponent.val ≠ 255)

/-- The integer significand of a finite value: the fraction, with the
hidden bit unless the exponent field is zero. -/
def Binary32.significand (x : Binary32) : Nat :=
  if x.exponent.val = 0 then x.mantissa.val else 8388608 + x.mantissa.val

/-- The power of two that scales the significand: a finite `x` has
magnitude `significand x * 2 ^ scale x`. -/
def Binary32.scale (x : Binary32) : Int :=
  if x.exponent.val = 0 then -149 else (x.exponent.val : Int) - 150

/-- A NaN operand as an operation returns it: made quiet. -/
def Binary32.quiet (x : Binary32) : Binary32 :=
  { x with mantissa := ⟨4194304 + x.mantissa.val % 4194304, by omega⟩ }

/-- The number of binary digits of `n`, with `fuel` halvings. -/
def bit_length_aux : Nat → Nat → Nat
  | 0, _ => 0
  | fuel + 1, n => if n = 0 then 0 else 1 + bit_length_aux fuel (n / 2)

/-- The number of binary digits of `n`. -/
def bit_length (n : Nat) : Nat := bit_length_aux n n

/-- The integer part of the square root of `n`, two bits of `n` for each
bit of the root, with `fuel` steps. -/
def integer_sqrt_aux : Nat → Nat → Nat
  | 0, _ => 0
  | fuel + 1, n =>
    if n = 0 then 0
    else if (2 * integer_sqrt_aux fuel (n / 4) + 1) *
        (2 * integer_sqrt_aux fuel (n / 4) + 1) ≤ n
    then 2 * integer_sqrt_aux fuel (n / 4) + 1
    else 2 * integer_sqrt_aux fuel (n / 4)

/-- The integer part of the square root of `n`. -/
def integer_sqrt (n : Nat) : Nat := integer_sqrt_aux n n

/-- The quotient `n / 2^sh` rounded to the nearest integer, a tie to the
even one. -/
def round_shift (n sh : Nat) : Nat :=
  if 2 * (n % 2 ^ sh) < 2 ^ sh then n / 2 ^ sh
  else if 2 ^ sh < 2 * (n % 2 ^ sh) then 1 + n / 2 ^ sh
  else if n / 2 ^ sh % 2 = 0 then n / 2 ^ sh
  else 1 + n / 2 ^ sh

/-- The binary32 value nearest to `n * 2^e` (a tie to the even fraction)
with sign `s`: the zero if `n` is zero, the infinity if the rounded value
exceeds the largest finite one. The binade of the value, no lower than that
of the subnormals, fixes the quantum; the rounded significand is added to
the exponent field, so that a carry out of the fraction moves to the next
binade. -/
def Binary32.round (s : Bool) (n : Nat) (e : Int) : Binary32 :=
  if n = 0 then Binary32.zero s
  else
    let top : Int := (bit_length n : Int) - 1 + e
    let binade : Int := if top < -126 then -126 else top
    let sh : Int := binade - 23 - e
    let sig : Nat := if sh ≤ 0 then n * 2 ^ (-sh).toNat else round_shift n sh.toNat
    let mag : Nat := (binade + 126).toNat * 8388608 + sig
    if 2139095040 ≤ mag then Binary32.inf s else Binary32.ofMagnitude s mag

/-- The function `fabs`: the sign bit cleared. -/
def Binary32.abs (x : Binary32) : Binary32 := { x with sign := false }

/-- The unary minus: the sign bit inverted. -/
def Binary32.neg (x : Binary32) : Binary32 := { x with sign := !x.sign }

/-- The product `x * y`, correctly rounded to the nearest value. -/
def Binary32.mul (x y : Binary32) : Binary32 :=
  if x.isNaN then x.quiet
  else if y.isNaN then y.quiet
  else if (x.isInf && y.isZero) || (x.isZero && y.isInf) then Binary32.nan
  else if x.isInf || y.isInf then Binary32.inf (x.sign != y.sign)
  else Binary32.round (x.sign != y.sign) (x.significand * y.significand) (x.scale + y.scale)

/-- The function `sqrt`, correctly rounded to the nearest value. The
significand is scaled by an even or odd power of two to a number `n` of
forty-nine or fifty bits whose exponent is even; the integer root of `n` has
twenty-five bits, and one more bit records whether the root is inexact. -/
def Binary32.sqrt (x : Binary32) : Binary32 :=
  if x.isNaN then x.quiet
  else if x.isZero then x
  else if x.sign then Binary32.nan
  else if x.isInf then x
  else
    let k0 : Nat := 49 - bit_length x.significand
    let k : Nat := if (x.scale - (k0 : Int)) % 2 = 0 then k0 else 1 + k0
    let n : Nat := x.significand * 2 ^ k
    let r : Nat := integer_sqrt n
    let sticky : Nat := if r * r = n then 0 else 1
    Binary32.round false (2 * r + sticky) ((x.scale - (k : Int)) / 2 - 1)

/-- The operators and functions of `MathOps` on single precision: the sign
operations, the product and the square root are those of IEEE-754; the
others are taken from `other`. -/
def binary32Ops (other : MathOps Binary32) : MathOps Binary32 :=
  { other with
    fabs := Binary32.abs
    neg := Binary32.neg
    mul := Binary32.mul
    sqrt := Binary32.sqrt }

/-- An instance of the functions that `binary32Ops` leaves open, for
concrete evaluation: each returns its argument. -/
def argumentOps : MathOps Binary32 :=
  { fabs := fun x => x, neg := fun x => x, floor := fun x => x, ceil := fun x => x,
    mul := fun x _ => x, sqrt := fun x => x, div := fun _ y => y,
    one := Binary32.ofMagnitude false 1065353216,
    exp := fun x => x, log := fun x => x, sin := fun x => x, cos := fun x => x,
    tan := fun x => x, asin := fun x => x, acos := fun x => x, atan := fun x => x }

/-- The value `2^64`. -/
def two_pow_64 : Binary32 := { sign := false, exponent := 191, mantissa := 0 }

/-- The value `-3`. -/
def minus_three : Binary32 := { sign := true, exponent := 128, mantissa := 4194304 }

/-- The value `2^-64 * (1 + 2^-23)`, in the binade below `2^-63`. -/
def below_two_pow_minus_63 : Binary32 := { sign := false, exponent := 63, mantissa := 1 }

/-- A buffer of four values: `-3`, the negative zero, `2^64` and a negative
NaN. -/
def signedBuffer : Mat Binary32 :=
  { dims := 1, w := 4, h := 1, c := 1,
    data := [minus_three, Binary32.zero true, two_pow_64,
      { sign := true, exponent := 255, mantissa := 1 }] }

/-! ## The loops, index by index -/

theorem run_loop_inplace_spec {α : Type} (op : α → α) :
    ∀ (order : List Nat) (l : List α), order.Nodup → (∀ i ∈ order, i < l.length) →
      ∃ r, run_loop (unary_op_inplace_step op) order l = some r ∧ r.length = l.length ∧
        ∀ i, r[i]? = if i ∈ order then (l[i]?).map op else l[i]? := by
  intro order
  induction order with
  | nil => intro l _ _; exact ⟨l, rfl, rfl, by simp⟩
  | cons j rest ih =>
    intro l hnd hb
    have hj : j < l.length := hb j (List.mem_cons_self _ _)
    have hnd1 := List.nodup_cons.mp hnd
    obtain ⟨r, hr, hlen, hget⟩ := ih (l.set j (op l[j])) hnd1.2
      (by intro i hi; simpa using hb i (List.mem_cons_of_mem _ hi))
    refine ⟨r, ?_, by simpa using hlen, ?_⟩
    · simp [run_loop, unary_op_inplace_step, List.getElem?_eq_getElem hj, hr]
    · intro i
      rw [hget i]
      by_cases hi : i ∈ rest
      · have hne : j ≠ i := by rintro rfl; exact hnd1.1 hi
        simp [hi, List.getElem?_set_ne hne]
      · by_cases hij : i = j
        · subst hij
          simp [hi, List.getElem?_eq_getElem hj, List.getElem?_set_self hj]
        · have hne : j ≠ i := fun h => hij h.symm
          simp [hi, hij, List.getElem?_set_ne hne]

theorem run_loop_spec {α : Type} (op : α → α) (ptr : List α) :
    ∀ (order : List Nat) (out : List α),
      (∀ i ∈ order, i < ptr.length ∧ i < out.length) →
      ∃ r, run_loop (unary_op_step op ptr) order out = some r ∧ r.length = out.length ∧
        ∀ i, r[i]? = if i ∈ order then (ptr[i]?).map op else out[i]? := by
  intro order
  induction order with
  | nil => intro out _; exact ⟨out, rfl, rfl, by simp⟩
  | cons j rest ih =>
    intro out hb
    have hj := hb j (List.mem_cons_self _ _)
    obtain ⟨r, hr, hlen, hget⟩ := ih (out.set j (op ptr[j]))
      (by intro i hi; simpa using hb i (List.mem_cons_of_mem _ hi))
    refine ⟨r, ?_, by simpa using hlen, ?_⟩
    · simp [run_loop, unary_op_step, List.getElem?_eq_getElem hj.1, hj.2, hr]
    · intro i
      rw [hget i]
      by_cases hi : i ∈ rest
      · simp [hi]
      · by_cases hij : i = j
        · subst hij
          simp [hi, List.getElem?_eq_getElem hj.1, List.getElem?_set_self hj.2]
        · have hne : j ≠ i := fun h => hij h.symm
          simp [hi, hij, List.getElem?_set_ne hne]

/-! ## Machine integers: facts -/

theorem wrap32_eq_emod (x : Int) :
    wrap32 x = (x + 2147483648) % 4294967296 - 2147483648 := by
  cases x with
  | ofNat n =>
    simp only [wrap32]
    split
    · simp only [Int.ofNat_eq_coe]; omega
    · simp only [Int.ofNat_eq_coe, Int.negSucc_eq]; omega
  | negSucc n =>
    simp only [wrap32]
    split
    · simp only [Int.negSucc_eq]; omega
    · simp only [Int.ofNat_eq_coe, Int.negSucc_eq]; omega

theorem wrap32_eq_self {x : Int} (h0 : -2147483648 ≤ x) (h1 : x < 2147483648) :
    wrap32 x = x := by
  rw [wrap32_eq_emod]
  omega

theorem wrap32_le_self {x : Int} (h0 : 0 ≤ x) : wrap32 x ≤ x := by
  rw [wrap32_eq_emod]
  omega

theorem wrap32_lt (x : Int) : wrap32 x < 2147483648 := by
  rw [wrap32_eq_emod]
  omega

theorem wrap32_mul_wrap32 (x y : Int) : wrap32 (wrap32 x * y) = wrap32 (x * y) := by
  simp only [wrap32_eq_emod]
  have h : ((x + 2147483648) % 4294967296 - 2147483648) * y + 2147483648
      = (x * y + 2147483648) + 4294967296 * (-((x + 2147483648) / 4294967296) * y) := by
    have := Int.emod_add_ediv (x + 2147483648) 4294967296
    linear_combination y * this
  rw [h, Int.add_mul_emod_self_left]

theorem mul32_mul32 (w h c : Int) : mul32 (mul32 w h) c = wrap32 (w * h * c) := by
  unfold mul32
  exact wrap32_mul_wrap32 (w * h) c

theorem loop_indices_bound {size : Int} {n : Nat} (h : size ≤ (n : Int)) :
    ∀ i ∈ loop_indices size, i < n := by
  intro i hi
  unfold loop_indices at hi
  have := List.mem_range.mp hi
  omega

theorem mem_loop_indices {size : Int} {i : Nat} : i ∈ loop_indices size ↔ (i : Int) < size := by
  unfold loop_indices
  rw [List.mem_range]
  omega

/-! ## The two paths, index by index -/


theorem unary_op_inplace_spec {α : Type} (op : α → α) (a : Mat α) :
    ∃ r, unary_op_inplace op a = some (0, { a with data := r }) ∧
      r.length = a.data.length ∧
      ∀ i : Nat, r[i]? =
        if (i : Int) < wrap32 (a.data.length : Int) then (a.data[i]?).map op else a.data[i]? := by
  have hle : wrap32 (a.data.length : Int) ≤ (a.data.length : Int) :=
    wrap32_le_self (Int.ofNat_nonneg _)
  have hb : ∀ i ∈ loop_indices (wrap32 (a.data.length : Int)), i < a.data.length :=
    loop_indices_bound hle
  have hnd : (loop_indices (wrap32 (a.data.length : Int))).Nodup := by
    unfold loop_indices
    exact List.nodup_range _
  obtain ⟨r, hr, hlen, hget⟩ := run_loop_inplace_spec op
    (loop_indices (wrap32 (a.data.length : Int))) a.data hnd hb
  refine ⟨r, ?_, hlen, ?_⟩
  · unfold unary_op_inplace Mat.total
    simp only [hr]
  · intro i
    rw [hget i]
    simp only [mem_loop_indices]
theorem unary_op_inplace_small {α : Type} (op : α → α) (a : Mat α)
    (h : a.data.length < 2147483648) :
    unary_op_inplace op a = some (0, { a with data := a.data.map op }) := by
  obtain ⟨r, hr, _, hget⟩ := unary_op_inplace_spec op a
  have hw : wrap32 (a.data.length : Int) = (a.data.length : Int) :=
    wrap32_eq_self (by omega) (by omega)
  have : r = a.data.map op := by
    apply List.ext_getElem?
    intro i
    rw [hget i, hw, List.getElem?_map]
    by_cases hi : i < a.data.length
    · simp [hi]
    · have : a.data[i]? = none := List.getElem?_eq_none (by omega)
      simp [hi, this]
  rw [hr, this]

theorem storage_length {α : Type} (al : Allocator α) (n : Nat) :
    (al.storage n).length = if al.succeeds n then n else 0 := by
  unfold Allocator.storage
  split <;> simp

theorem storage_length_of_ne_nil {α : Type} (al : Allocator α) (n : Nat)
    (h : al.storage n ≠ []) : (al.storage n).length = n := by
  unfold Allocator.storage at *
  split at h <;> simp_all

/-- For an input of rank 1, 2 or 3 `unary_op` creates the output, returns
-100 when it is empty and runs the loop otherwise. -/
theorem unary_op_of_rank {α : Type} (al : Allocator α) (op : α → α) (a b : Mat α)
    (hrank : a.dims = 1 ∨ a.dims = 2 ∨ a.dims = 3) :
    unary_op al op a b =
      if (unary_op_created al a).empty then some (-100, unary_op_created al a)
      else unary_op_tail op a (unary_op_created al a) (mul32 (mul32 a.w a.h) a.c) := by
  unfold unary_op unary_op_created
  rcases hrank with h | h | h
  · have h3 : ¬ a.dims = 3 := by rw [h]; decide
    have h2 : ¬ a.dims = 2 := by rw [h]; decide
    simp only [if_neg h3, if_neg h2, if_pos h]
  · have h3 : ¬ a.dims = 3 := by rw [h]; decide
    simp only [if_neg h3, if_pos h]
  · simp only [if_pos h]

/-- On a well-formed tensor the output created has the input's shape and
fresh storage for its element count. -/
theorem unary_op_created_wellFormed {α : Type} (al : Allocator α) (a : Mat α)
    (hwf : a.WellFormed) :
    unary_op_created al a =
      { dims := a.dims, w := a.w, h := a.h, c := a.c, data := al.storage a.data.length } := by
  obtain ⟨hd, hw, hh, hc, hl⟩ := hwf
  have hn3 : (a.w * a.h * a.c).toNat = a.data.length := by rw [← hl]; simp
  unfold unary_op_created
  rcases hd with ⟨h1, h2, h3⟩ | ⟨h1, h3⟩ | h1
  · have hn : a.w.toNat = a.data.length := by rw [← hn3, h2, h3]; simp
    have d3 : ¬ a.dims = 3 := by rw [h1]; decide
    have d2 : ¬ a.dims = 2 := by rw [h1]; decide
    rw [if_neg d3, if_neg d2]
    unfold Mat.create1
    rw [hn, h1, h2, h3]
  · have hn : (a.w * a.h).toNat = a.data.length := by rw [← hn3, h3]; simp
    have d3 : ¬ a.dims = 3 := by rw [h1]; decide
    rw [if_neg d3, if_pos h1]
    unfold Mat.create2
    rw [hn, h1, h3]
  · rw [if_pos h1]
    unfold Mat.create3
    rw [hn3, h1]

theorem wellFormed_rank {α : Type} {a : Mat α} (hwf : a.WellFormed) :
    a.dims = 1 ∨ a.dims = 2 ∨ a.dims = 3 := by
  rcases hwf.1 with ⟨h, _, _⟩ | ⟨h, _⟩ | h
  · exact Or.inl h
  · exact Or.inr (Or.inl h)
  · exact Or.inr (Or.inr h)

theorem unary_op_tail_spec {α : Type} (op : α → α) (a b : Mat α) (size : Int)
    (ha : size ≤ (a.data.length : Int)) (hb : size ≤ (b.data.length : Int)) :
    ∃ r, unary_op_tail op a b size = some (0, { b with data := r }) ∧
      r.length = b.data.length ∧
      ∀ i : Nat, r[i]? = if (i : Int) < size then (a.data[i]?).map op else b.data[i]? := by
  have hbnd : ∀ i ∈ loop_indices size, i < a.data.length ∧ i < b.data.length :=
    fun i hi => ⟨loop_indices_bound ha i hi, loop_indices_bound hb i hi⟩
  obtain ⟨r, hr, hlen, hget⟩ := run_loop_spec op a.data (loop_indices size) b.data hbnd
  refine ⟨r, ?_, hlen, ?_⟩
  · unfold unary_op_tail
    simp only [hr]
  · intro i
    rw [hget i]
    simp only [mem_loop_indices]

/-! ## Dispatch on the operation code -/

theorem Operation.index_inj {p q : Operation} (h : p.index = q.index) : p = q := by
  cases p <;> cases q <;> first | rfl | exact absurd h (by decide)

theorem inplaceCodes_index (k : OperationCodes) (p : Operation) :
    k.inplaceCodes[p.index]? = some (k.code p) := by
  cases p <;> rfl

theorem inplaceCodes_length (k : OperationCodes) : k.inplaceCodes.length = 16 := rfl

theorem Operation.index_lt (p : Operation) : p.index < 16 := by
  cases p <;> decide

theorem code_injective {k : OperationCodes} (hk : k.Distinct) {p q : Operation}
    (h : k.code p = k.code q) : p = q := by
  apply Operation.index_inj
  have hlen : p.index < k.inplaceCodes.length := by
    rw [inplaceCodes_length]; exact p.index_lt
  exact List.getElem?_inj hlen hk (by rw [inplaceCodes_index, inplaceCodes_index, h])

theorem forward_dispatch {α : Type} (k : OperationCodes) (m : MathOps α) (al : Allocator α)
    (self : UnaryOp) (a b : Mat α) (p : Operation) (hk : k.Distinct)
    (hp : p ≠ .reciprocal) (hcode : self.op_type = k.code p) :
    UnaryOp.forward k m al self a b = unary_op al (formula m p) a b := by
  have hne : ∀ q : Operation, q ≠ p → ¬ (k.code p = k.code q) :=
    fun q hq h => hq (code_injective hk h).symm
  unfold UnaryOp.forward
  rw [hcode]
  cases p
  all_goals first
    | exact absurd rfl hp
    | (have h1 := hne .abs; have h2 := hne .neg; have h3 := hne .floor; have h4 := hne .ceil
       have h5 := hne .square; have h6 := hne .sqrt; have h7 := hne .rsqrt; have h8 := hne .exp
       have h9 := hne .log; have h10 := hne .sin; have h11 := hne .cos; have h12 := hne .tan
       have h13 := hne .asin; have h14 := hne .acos; have h15 := hne .atan
       simp only [OperationCodes.code, ne_eq, reduceCtorEq, not_false_eq_true, forall_const,
         not_true_eq_false, IsEmpty.forall_iff] at h1 h2 h3 h4 h5 h6 h7 h8 h9 h10 h11 h12 h13 h14 h15
       simp only [OperationCodes.code, if_true, if_false, *]
       rfl)

theorem forward_inplace_dispatch {α : Type} (k : OperationCodes) (m : MathOps α)
    (self : UnaryOp) (a : Mat α) (p : Operation) (hk : k.Distinct)
    (hcode : self.op_type = k.code p) :
    UnaryOp.forward_inplace k m self a = unary_op_inplace (formula m p) a := by
  have hne : ∀ q : Operation, q ≠ p → ¬ (k.code p = k.code q) :=
    fun q hq h => hq (code_injective hk h).symm
  unfold UnaryOp.forward_inplace
  rw [hcode]
  cases p
  all_goals
    (have h1 := hne .abs; have h2 := hne .neg; have h3 := hne .floor; have h4 := hne .ceil
     have h5 := hne .square; have h6 := hne .sqrt; have h7 := hne .rsqrt; have h8 := hne .exp
     have h9 := hne .log; have h10 := hne .sin; have h11 := hne .cos; have h12 := hne .tan
     have h13 := hne .asin; have h14 := hne .acos; have h15 := hne .atan
     simp only [OperationCodes.code, ne_eq, reduceCtorEq, not_false_eq_true, forall_const,
       not_true_eq_false, IsEmpty.forall_iff] at h1 h2 h3 h4 h5 h6 h7 h8 h9 h10 h11 h12 h13 h14 h15
     simp only [OperationCodes.code, if_true, if_false, *]
     rfl)

theorem forward_of_mem {α : Type} (k : OperationCodes) (m : MathOps α) (al : Allocator α)
    (self : UnaryOp) (a b : Mat α) (h : self.op_type ∈ k.forwardCodes) :
    ∃ op : α → α, UnaryOp.forward k m al self a b = unary_op al op a b := by
  generalize hr : UnaryOp.forward k m al self a b = r
  unfold UnaryOp.forward at hr
  by_cases h1 : self.op_type = k.Operation_ABS
  · rw [if_pos h1] at hr; exact ⟨_, hr.symm⟩
  rw [if_neg h1] at hr
  by_cases h2 : self.op_type = k.Operation_NEG
  · rw [if_pos h2] at hr; exact ⟨_, hr.symm⟩
  rw [if_neg h2] at hr
  by_cases h3 : self.op_type = k.Operation_FLOOR
  · rw [if_pos h3] at hr; exact ⟨_, hr.symm⟩
  rw [if_neg h3] at hr
  by_cases h4 : self.op_type = k.Operation_CEIL
  · rw [if_pos h4] at hr; exact ⟨_, hr.symm⟩
  rw [if_neg h4] at hr
  by_cases h5 : self.op_type = k.Operation_SQUARE
  · rw [if_pos h5] at hr; exact ⟨_, hr.symm⟩
  rw [if_neg h5] at hr
  by_cases h6 : self.op_type = k.Operation_SQRT
  · rw [if_pos h6] at hr; exact ⟨_, hr.symm⟩
  rw [if_neg h6] at hr
  by_cases h7 : self.op_type = k.Operation_RSQRT
  · rw [if_pos h7] at hr; exact ⟨_, hr.symm⟩
  rw [if_neg h7] at hr
  by_cases h8 : self.op_type = k.Operation_EXP
  · rw [if_pos h8] at hr; exact ⟨_, hr.symm⟩
  rw [if_neg h8] at hr
  by_cases h9 : self.op_type = k.Operation_LOG
  · rw [if_pos h9] at hr; exact ⟨_, hr.symm⟩
  rw [if_neg h9] at hr
  by_cases h10 : self.op_type = k.Operation_SIN
  · rw [if_pos h10] at hr; exact ⟨_, hr.symm⟩
  rw [if_neg h10] at hr
  by_cases h11 : self.op_type = k.Operation_COS
  · rw [if_pos h11] at hr; exact ⟨_, hr.symm⟩
  rw [if_neg h11] at hr
  by_cases h12 : self.op_type = k.Operation_TAN
  · rw [if_pos h12] at hr; exact ⟨_, hr.symm⟩
  rw [if_neg h12] at hr
  by_cases h13 : self.op_type = k.Operation_ASIN
  · rw [if_pos h13] at hr; exact ⟨_, hr.symm⟩
  rw [if_neg h13] at hr
  by_cases h14 : self.op_type = k.Operation_ACOS
  · rw [if_pos h14] at hr; exact ⟨_, hr.symm⟩
  rw [if_neg h14] at hr
  by_cases h15 : self.op_type = k.Operation_ATAN
  · rw [if_pos h15] at hr; exact ⟨_, hr.symm⟩
  rw [if_neg h15] at hr
  exfalso
  simp only [OperationCodes.forwardCodes, List.mem_cons, List.mem_singleton,
    List.not_mem_nil, or_false] at h
  tauto

theorem forward_of_not_mem {α : Type} (k : OperationCodes) (m : MathOps α) (al : Allocator α)
    (self : UnaryOp) (a b : Mat α) (h : self.op_type ∉ k.forwardCodes) :
    UnaryOp.forward k m al self a b = some (0, b) := by
  simp only [OperationCodes.forwardCodes, List.mem_cons, List.mem_singleton,
    List.not_mem_nil, or_false, not_or] at h
  obtain ⟨h1, h2, h3, h4, h5, h6, h7, h8, h9, h10, h11, h12, h13, h14, h15⟩ := h
  unfold UnaryOp.forward
  rw [if_neg h1, if_neg h2, if_neg h3, if_neg h4, if_neg h5, if_neg h6, if_neg h7, if_neg h8,
    if_neg h9, if_neg h10, if_neg h11, if_neg h12, if_neg h13, if_neg h14, if_neg h15]

theorem forward_inplace_cases {α : Type} (k : OperationCodes) (m : MathOps α)
    (self : UnaryOp) (a : Mat α) :
    (∃ op : α → α, UnaryOp.forward_inplace k m self a = unary_op_inplace op a) ∨
      UnaryOp.forward_inplace k m self a = some (0, a) := by
  generalize hr : UnaryOp.forward_inplace k m self a = r
  unfold UnaryOp.forward_inplace at hr
  by_cases h1 : self.op_type = k.Operation_ABS
  · rw [if_pos h1] at hr; exact Or.inl ⟨_, hr.symm⟩
  rw [if_neg h1] at hr
  by_cases h2 : self.op_type = k.Operation_NEG
  · rw [if_pos h2] at hr; exact Or.inl ⟨_, hr.symm⟩
  rw [if_neg h2] at hr
  by_cases h3 : self.op_type = k.Operation_FLOOR
  · rw [if_pos h3] at hr; exact Or.inl ⟨_, hr.symm⟩
  rw [if_neg h3] at hr
  by_cases h4 : self.op_type = k.Operation_CEIL
  · rw [if_pos h4] at hr; exact Or.inl ⟨_, hr.symm⟩
  rw [if_neg h4] at hr
  by_cases h5 : self.op_type = k.Operation_SQUARE
  · rw [if_pos h5] at hr; exact Or.inl ⟨_, hr.symm⟩
  rw [if_neg h5] at hr
  by_cases h6 : self.op_type = k.Operation_SQRT
  · rw [if_pos h6] at hr; exact Or.inl ⟨_, hr.symm⟩
  rw [if_neg h6] at hr
  by_cases h7 : self.op_type = k.Operation_RSQRT
  · rw [if_pos h7] at hr; exact Or.inl ⟨_, hr.symm⟩
  rw [if_neg h7] at hr
  by_cases h8 : self.op_type = k.Operation_EXP
  · rw [if_pos h8] at hr; exact Or.inl ⟨_, hr.symm⟩
  rw [if_neg h8] at hr
  by_cases h9 : self.op_type = k.Operation_LOG
  · rw [if_pos h9] at hr; exact Or.inl ⟨_, hr.symm⟩
  rw [if_neg h9] at hr
  by_cases h10 : self.op_type = k.Operation_SIN
  · rw [if_pos h10] at hr; exact Or.inl ⟨_, hr.symm⟩
  rw [if_neg h10] at hr
  by_cases h11 : self.op_type = k.Operation_COS
  · rw [if_pos h11] at hr; exact Or.inl ⟨_, hr.symm⟩
  rw [if_neg h11] at hr
  by_cases h12 : self.op_type = k.Operation_TAN
  · rw [if_pos h12] at hr; exact Or.inl ⟨_, hr.symm⟩
  rw [if_neg h12] at hr
  by_cases h13 : self.op_type = k.Operation_ASIN
  · rw [if_pos h13] at hr; exact Or.inl ⟨_, hr.symm⟩
  rw [if_neg h13] at hr
  by_cases h14 : self.op_type = k.Operation_ACOS
  · rw [if_pos h14] at hr; exact Or.inl ⟨_, hr.symm⟩
  rw [if_neg h14] at hr
  by_cases h15 : self.op_type = k.Operation_ATAN
  · rw [if_pos h15] at hr; exact Or.inl ⟨_, hr.symm⟩
  rw [if_neg h15] at hr
  by_cases h16 : self.op_type = k.Operation_RECIPROCAL
  · rw [if_pos h16] at hr; exact Or.inl ⟨_, hr.symm⟩
  rw [if_neg h16] at hr
  exact Or.inr hr.symm

theorem forward_inplace_of_not_mem {α : Type} (k : OperationCodes) (m : MathOps α)
    (self : UnaryOp) (a : Mat α) (h : self.op_type ∉ k.inplaceCodes) :
    UnaryOp.forward_inplace k m self a = some (0, a) := by
  simp only [OperationCodes.inplaceCodes, OperationCodes.forwardCodes, List.cons_append,
    List.nil_append, List.mem_cons, List.mem_singleton, List.not_mem_nil, or_false, not_or] at h
  obtain ⟨h1, h2, h3, h4, h5, h6, h7, h8, h9, h10, h11, h12, h13, h14, h15, h16⟩ := h
  unfold UnaryOp.forward_inplace
  rw [if_neg h1, if_neg h2, if_neg h3, if_neg h4, if_neg h5, if_neg h6, if_neg h7, if_neg h8,
    if_neg h9, if_neg h10, if_neg h11, if_neg h12, if_neg h13, if_neg h14, if_neg h15,
    if_neg h16]

/-! ## The allocating path on a tensor of rank 1, 2 or 3 -/

theorem storage_eq_nil_iff {α : Type} (al : Allocator α) (n : Nat) :
    al.storage n = [] ↔ (al.succeeds n = false ∨ n = 0) := by
  unfold Allocator.storage
  cases hs : al.succeeds n
  · simp
  · cases n with
    | zero => simp
    | succ j => simp [List.range_succ]

theorem unary_op_ok {α : Type} (al : Allocator α) (op : α → α) (a b : Mat α)
    (hwf : a.WellFormed) (halloc : (unary_op_created al a).empty = false) :
    ∃ r, unary_op al op a b =
        some (0, { dims := a.dims, w := a.w, h := a.h, c := a.c, data := r }) ∧
      r.length = a.data.length ∧
      ∀ i : Nat, r[i]? =
        if (i : Int) < wrap32 (a.data.length : Int) then (a.data[i]?).map op
        else (al.storage a.data.length)[i]? := by
  have hcr := unary_op_created_wellFormed al a hwf
  have hne : al.storage a.data.length ≠ [] := by
    intro h
    rw [hcr, h] at halloc
    exact absurd halloc (by simp [Mat.empty])
  have hlen := storage_length_of_ne_nil al _ hne
  have hle : wrap32 (a.data.length : Int) ≤ (a.data.length : Int) :=
    wrap32_le_self (Int.natCast_nonneg _)
  obtain ⟨r, hr, hrl, hget⟩ := unary_op_tail_spec op a
    { dims := a.dims, w := a.w, h := a.h, c := a.c, data := al.storage a.data.length }
    (wrap32 (a.data.length : Int)) hle (by simpa [hlen] using hle)
  refine ⟨r, ?_, by simpa [hlen] using hrl, hget⟩
  rw [unary_op_of_rank al op a b (wellFormed_rank hwf), halloc, mul32_mul32, ← hwf.2.2.2.2]
  rw [hcr]
  simpa using hr

theorem unary_op_fail {α : Type} (al : Allocator α) (op : α → α) (a b : Mat α)
    (hrank : a.dims = 1 ∨ a.dims = 2 ∨ a.dims = 3)
    (hfail : (unary_op_created al a).empty = true) :
    unary_op al op a b = some (-100, unary_op_created al a) := by
  rw [unary_op_of_rank al op a b hrank, hfail]
  rfl

theorem empty_eq_true_iff {α : Type} (a : Mat α) : a.empty = true ↔ a.data = [] := by
  unfold Mat.empty
  exact List.isEmpty_iff

theorem fillAllocator_created_not_empty {α : Type} (v : α) (a : Mat α) (hwf : a.WellFormed)
    (hn : a.data.length ≠ 0) : (unary_op_created (fillAllocator v) a).empty = false := by
  rw [unary_op_created_wellFormed _ a hwf]
  cases h : (fillAllocator v).storage a.data.length with
  | nil =>
    rcases (storage_eq_nil_iff _ _).mp h with h1 | h1
    · exact absurd h1 (by simp [fillAllocator])
    · exact absurd h1 hn
  | cons x xs => rfl

theorem wellFormed_size {α : Type} {a : Mat α} (hwf : a.WellFormed)
    (hsize : a.w * a.h * a.c < 2147483648) :
    wrap32 (a.data.length : Int) = a.w * a.h * a.c := by
  obtain ⟨_, _, _, _, hl⟩ := hwf
  rw [← hl]
  exact wrap32_eq_self (by omega) (by omega)

/-! ## The allocating path: claims -/

/-- C1 (amended): for every operation code of the allocating path, the
enumerators being pairwise different, and every well-formed input tensor of
rank 1, 2 or 3 whose element count `w*h*c` fits a 32-bit `int` and for which
the output allocation succeeds, `UnaryOp::forward` returns 0 and the output
holds `w*h*c` elements, element `i` being `f(input element i)` for every
`i` in `[0, w*h*c)`, with `f` the formula of the operation in the spec's
table. -/
theorem forward_elementwise {α : Type} (k : OperationCodes) (m : MathOps α)
    (al : Allocator α) (self : UnaryOp) (a b : Mat α) (p : Operation)
    (hk : k.Distinct) (hp : p ≠ Operation.reciprocal) (hcode : self.op_type = k.code p)
    (hwf : a.WellFormed) (hsize : a.w * a.h * a.c < 2147483648)
    (halloc : (unary_op_created al a).empty = false) :
    ∃ out, UnaryOp.forward k m al self a b = some (0, out) ∧
      out.data = a.data.map (formula m p) ∧
      (out.data.length : Int) = a.w * a.h * a.c ∧
      ∀ i : Nat, (i : Int) < a.w * a.h * a.c →
        ∃ x, a.data[i]? = some x ∧ out.data[i]? = some (formula m p x) := by
  obtain ⟨r, hr, hrl, hget⟩ := unary_op_ok al (formula m p) a b hwf halloc
  have hsz := wellFormed_size hwf hsize
  have hl : (a.data.length : Int) = a.w * a.h * a.c := hwf.2.2.2.2
  have hmap : r = a.data.map (formula m p) := by
    apply List.ext_getElem?
    intro i
    rw [hget i, hsz, ← hl, List.getElem?_map]
    by_cases hi : i < a.data.length
    · have : (i : Int) < (a.data.length : Int) := by omega
      rw [if_pos this]
    · have h1 : ¬ (i : Int) < (a.data.length : Int) := by omega
      have h2 : (al.storage a.data.length)[i]? = none :=
        List.getElem?_eq_none (by
          have := storage_length al a.data.length
          split at this <;> omega)
      have h3 : a.data[i]? = none := List.getElem?_eq_none (by omega)
      rw [if_neg h1, h2, h3]
      rfl
  refine ⟨_, (forward_dispatch k m al self a b p hk hp hcode).trans hr, hmap, ?_, ?_⟩
  · show (r.length : Int) = _
    rw [hrl, hl]
  · intro i hi
    have hi2 : i < a.data.length := by
      have : (i : Int) < (a.data.length : Int) := by rw [hl]; exact hi
      omega
    refine ⟨a.data[i], List.getElem?_eq_getElem hi2, ?_⟩
    show r[i]? = _
    rw [hmap, List.getElem?_map, List.getElem?_eq_getElem hi2]
    rfl

/-- Witness for C1: the square root of `[4, 9]` is `[2, 3]`. -/
theorem forward_elementwise_witness :
    ∃ out, UnaryOp.forward tableCodes intOps (fillAllocator 0)
        { one_blob_only := true, support_inplace := true, op_type := 5 }
        { dims := 1, w := 2, h := 1, c := 1, data := [4, 9] } (Mat.nil Int) = some (0, out) ∧
      out.data = [2, 3] :=
  have h := forward_elementwise tableCodes intOps (fillAllocator 0)
    { one_blob_only := true, support_inplace := true, op_type := 5 }
    { dims := 1, w := 2, h := 1, c := 1, data := [4, 9] } (Mat.nil Int) Operation.sqrt
    (by decide) (by decide) rfl (by decide) (by decide) (by decide)
  h.elim fun out ho => ⟨out, ho.1, ho.2.1.trans (by decide)⟩

theorem hugeTensor_length : hugeTensor.data.length = 2147483648 := by
  simp only [hugeTensor, List.length_replicate]

theorem hugeTensor_wellFormed : hugeTensor.WellFormed := by
  refine ⟨Or.inr (Or.inr rfl), by decide, by decide, by decide, ?_⟩
  rw [hugeTensor_length]
  decide

theorem wrap32_two_pow_31 : wrap32 ((2147483648 : Nat) : Int) = -2147483648 := by decide

theorem fillAllocator_storage_getElem {α : Type} (v : α) (n i : Nat) (hi : i < n) :
    ((fillAllocator v).storage n)[i]? = some v := by
  simp [Allocator.storage, fillAllocator, List.getElem?_range hi, hi]

/-- C1 (counterexample): a well-formed 3-D tensor of `1024 * 1024 * 2048`
elements, all 1, with the operation `neg` and an allocation that succeeds:
`size` is reduced to `int` and is negative, the loop does not run and
`forward` returns 0 with output element 0 still at its allocation-time value
0, not at `-1`. -/
theorem huge_tensor_forward_skips_loop :
    hugeTensor.WellFormed ∧
      (unary_op_created (fillAllocator (0 : Int)) hugeTensor).empty = false ∧
      (0 : Int) < hugeTensor.w * hugeTensor.h * hugeTensor.c ∧
      hugeTensor.data[0]? = some 1 ∧ formula intOps Operation.neg 1 = -1 ∧
      ∃ out, UnaryOp.forward tableCodes intOps (fillAllocator 0)
          { one_blob_only := true, support_inplace := true, op_type := 1 }
          hugeTensor (Mat.nil Int) = some (0, out) ∧
        out.data[0]? = some 0 := by
  have hne : (unary_op_created (fillAllocator (0 : Int)) hugeTensor).empty = false :=
    fillAllocator_created_not_empty 0 hugeTensor hugeTensor_wellFormed
      (by rw [hugeTensor_length]; decide)
  refine ⟨hugeTensor_wellFormed, hne, by decide, ?_, by decide, ?_⟩
  · simp only [hugeTensor]
    exact List.getElem?_replicate_of_lt (by decide)
  · obtain ⟨r, hr, _, hget⟩ := unary_op_ok (fillAllocator (0 : Int))
      (formula intOps Operation.neg) hugeTensor (Mat.nil Int) hugeTensor_wellFormed hne
    refine ⟨_, (forward_dispatch tableCodes intOps (fillAllocator 0)
      { one_blob_only := true, support_inplace := true, op_type := 1 }
      hugeTensor (Mat.nil Int) Operation.neg (by decide) (by decide) rfl).trans hr, ?_⟩
    show r[0]? = some 0
    rw [hget 0, hugeTensor_length, wrap32_two_pow_31, if_neg (by decide)]
    exact fillAllocator_storage_getElem 0 _ 0 (by decide)

/-- C2: for every operation code supported by the allocating path and every
well-formed input tensor of rank 1, 2 or 3, `UnaryOp::forward` returns a
status, and when the status is 0 the output tensor has the dimensionality,
the extents `w`, `h`, `c` and the element count of the input. -/
theorem forward_preserves_shape {α : Type} (k : OperationCodes) (m : MathOps α)
    (al : Allocator α) (self : UnaryOp) (a b : Mat α)
    (hop : self.op_type ∈ k.forwardCodes) (hwf : a.WellFormed) :
    ∃ st out, UnaryOp.forward k m al self a b = some (st, out) ∧
      (st = 0 →
        out.dims = a.dims ∧ out.w = a.w ∧ out.h = a.h ∧ out.c = a.c ∧
          out.total = a.total) := by
  obtain ⟨op, hf⟩ := forward_of_mem k m al self a b hop
  cases hs : (unary_op_created al a).empty
  · obtain ⟨r, hr, hrl, _⟩ := unary_op_ok al op a b hwf hs
    exact ⟨0, _, hf.trans hr, fun _ => ⟨rfl, rfl, rfl, rfl, hrl⟩⟩
  · refine ⟨-100, _, hf.trans (unary_op_fail al op a b (wellFormed_rank hwf) hs), ?_⟩
    intro h
    exact absurd h (by decide)

/-- Witness for C2: `neg` on a tensor of shape (2, 2, 3). -/
theorem forward_preserves_shape_witness :
    ∃ st out, UnaryOp.forward tableCodes intOps (fillAllocator 0)
        { one_blob_only := true, support_inplace := true, op_type := 1 }
        { dims := 3, w := 2, h := 2, c := 3, data := [1, 2, 3, 4, 5, 6, 7, 8, 9, 10, 11, 12] }
        (Mat.nil Int) = some (st, out) ∧
      (st = 0 →
        out.dims = 3 ∧ out.w = 2 ∧ out.h = 2 ∧ out.c = 3 ∧ out.total = 12) :=
  forward_preserves_shape tableCodes intOps (fillAllocator 0)
    { one_blob_only := true, support_inplace := true, op_type := 1 }
    { dims := 3, w := 2, h := 2, c := 3, data := [1, 2, 3, 4, 5, 6, 7, 8, 9, 10, 11, 12] }
    (Mat.nil Int) (by decide) (by decide)

/-- C3 (amended): for every operation code that matches none of the fifteen
enumerators `UnaryOp::forward` tests, `forward` returns 0 and leaves the
output tensor exactly as the caller passed it: nothing is allocated and the
output does not take the input's shape. -/
theorem forward_unsupported_untouched {α : Type} (k : OperationCodes) (m : MathOps α)
    (al : Allocator α) (self : UnaryOp) (a b : Mat α)
    (hop : self.op_type ∉ k.forwardCodes) :
    UnaryOp.forward k m al self a b = some (0, b) :=
  forward_of_not_mem k m al self a b hop

/-- Witness for C3: the code 1000 and an output that held three elements
before the call. -/
theorem forward_unsupported_untouched_witness :
    UnaryOp.forward tableCodes intOps (fillAllocator 0)
        { one_blob_only := true, support_inplace := true, op_type := 1000 }
        { dims := 1, w := 2, h := 1, c := 1, data := [4, 9] }
        { dims := 1, w := 3, h := 1, c := 1, data := [7, 7, 7] } =
      some (0, { dims := 1, w := 3, h := 1, c := 1, data := [7, 7, 7] }) :=
  forward_unsupported_untouched tableCodes intOps (fillAllocator 0)
    { one_blob_only := true, support_inplace := true, op_type := 1000 }
    { dims := 1, w := 2, h := 1, c := 1, data := [4, 9] }
    { dims := 1, w := 3, h := 1, c := 1, data := [7, 7, 7] } (by decide)

/-- C3 (counterexample): with the unsupported code 1000, a 1-D input of two
elements and a default-constructed output, `forward` returns 0 and the
output is still the default-constructed tensor: no storage was allocated
and its dimensionality and width are 0, not the input's 1 and 2. -/
theorem forward_unsupported_no_allocation :
    (1000 : Int) ∉ tableCodes.forwardCodes ∧
      UnaryOp.forward tableCodes intOps (fillAllocator 0)
          { one_blob_only := true, support_inplace := true, op_type := 1000 }
          { dims := 1, w := 2, h := 1, c := 1, data := [4, 9] } (Mat.nil Int) =
        some (0, Mat.nil Int) ∧
      (Mat.nil Int).data = [] ∧ (Mat.nil Int).dims ≠ 1 ∧ (Mat.nil Int).w ≠ 2 := by
  decide

theorem load_param_status (u : UnaryOp) (fp : List Nat) :
    (u.load_param fp).1 = 0 ∨ (u.load_param fp).1 = -1 := by
  unfold UnaryOp.load_param
  by_cases h : (fscanf_d fp).1 = 1
  · left; simp [h]
  · right; simp [h]

/-- C4: for every operation code supported by the allocating path and every
input tensor of rank 1, 2 or 3, if the output allocation fails (the created
tensor is empty) then `UnaryOp::forward` returns the status -100, which
differs from 0, from -1 and from every status `load_param` returns, and the
output holds no element. -/
theorem forward_allocation_failure {α : Type} (k : OperationCodes) (m : MathOps α)
    (al : Allocator α) (self : UnaryOp) (a b : Mat α)
    (hop : self.op_type ∈ k.forwardCodes)
    (hrank : a.dims = 1 ∨ a.dims = 2 ∨ a.dims = 3)
    (hfail : (unary_op_created al a).empty = true) :
    ∃ st out, UnaryOp.forward k m al self a b = some (st, out) ∧
      st = -100 ∧ st ≠ 0 ∧ st ≠ -1 ∧
      (∀ (u : UnaryOp) (fp : List Nat), (u.load_param fp).1 ≠ st) ∧
      out.data = [] := by
  obtain ⟨op, hf⟩ := forward_of_mem k m al self a b hop
  refine ⟨-100, _, hf.trans (unary_op_fail al op a b hrank hfail), rfl, by decide, by decide,
    ?_, (empty_eq_true_iff _).mp hfail⟩
  intro u fp
  rcases load_param_status u fp with h | h <;> rw [h] <;> decide

/-- Witness for C4: the square root of `[4, 9]` with an allocator that
satisfies no request. -/
theorem forward_allocation_failure_witness :
    ∃ st out, UnaryOp.forward tableCodes intOps (failAllocator 0)
        { one_blob_only := true, support_inplace := true, op_type := 5 }
        { dims := 1, w := 2, h := 1, c := 1, data := [4, 9] } (Mat.nil Int) = some (st, out) ∧
      st = -100 ∧ st ≠ 0 ∧ st ≠ -1 ∧
      (∀ (u : UnaryOp) (fp : List Nat), (u.load_param fp).1 ≠ st) ∧
      out.data = [] :=
  forward_allocation_failure tableCodes intOps (failAllocator 0)
    { one_blob_only := true, support_inplace := true, op_type := 5 }
    { dims := 1, w := 2, h := 1, c := 1, data := [4, 9] } (Mat.nil Int)
    (by decide) (by decide) (by decide)

/-! ## The in-place path: claims -/

/-- C5 (amended): for every operation code supported by the in-place path,
the enumerators being pairwise different, and every buffer of fewer than
2^31 elements, so that its element count fits the 32-bit `int size`,
`UnaryOp::forward_inplace` returns 0 and the element `i` after the call is
`f(element i before the call)` for every index `i` in `[0, total)`: the
buffer keeps its shape and its storage is the old one mapped by `f`. -/
theorem forward_inplace_elementwise {α : Type} (k : OperationCodes) (m : MathOps α)
    (self : UnaryOp) (a : Mat α) (p : Operation)
    (hk : k.Distinct) (hcode : self.op_type = k.code p) (hsize : a.total < 2147483648) :
    UnaryOp.forward_inplace k m self a =
        some (0, { a with data := a.data.map (formula m p) }) ∧
      ∀ i : Nat, i < a.total →
        ∃ x, a.data[i]? = some x ∧ (a.data.map (formula m p))[i]? = some (formula m p x) := by
  refine ⟨(forward_inplace_dispatch k m self a p hk hcode).trans
    (unary_op_inplace_small (formula m p) a hsize), ?_⟩
  intro i hi
  refine ⟨a.data[i], List.getElem?_eq_getElem hi, ?_⟩
  rw [List.getElem?_map, List.getElem?_eq_getElem hi]
  rfl

/-- Witness for C5: `abs` on `[-2, 3, 0]` gives `[2, 3, 0]`. -/
theorem forward_inplace_elementwise_witness :
    UnaryOp.forward_inplace tableCodes intOps
        { one_blob_only := true, support_inplace := true, op_type := 0 }
        { dims := 1, w := 3, h := 1, c := 1, data := [-2, 3, 0] } =
      some (0, { dims := 1, w := 3, h := 1, c := 1, data := [2, 3, 0] }) :=
  (forward_inplace_elementwise tableCodes intOps
    { one_blob_only := true, support_inplace := true, op_type := 0 }
    { dims := 1, w := 3, h := 1, c := 1, data := [-2, 3, 0] } Operation.abs
    (by decide) rfl (by decide)).1.trans (by decide)

theorem unary_op_inplace_two_pow_31 {α : Type} (op : α → α) (a : Mat α)
    (h : a.data.length = 2147483648) : unary_op_inplace op a = some (0, a) := by
  obtain ⟨r, hr, _, hget⟩ := unary_op_inplace_spec op a
  have : r = a.data := by
    apply List.ext_getElem?
    intro i
    rw [hget i, h, wrap32_two_pow_31, if_neg (by omega)]
  rw [hr, this]

/-- C5 (counterexample): a buffer of `65536 * 32768 = 2^31` elements, all 1,
with the operation `neg`: `size` is the element count reduced to `int` and
is negative, the loop does not run and `forward_inplace` returns 0 with the
buffer unchanged; element 0 is still 1, not `-1`. -/
theorem huge_buffer_inplace_skips_loop :
    UnaryOp.forward_inplace tableCodes intOps
        { one_blob_only := true, support_inplace := true, op_type := 1 } hugeBuffer =
      some (0, hugeBuffer) ∧
      hugeBuffer.total = 2147483648 ∧ hugeBuffer.data[0]? = some 1 ∧
      formula intOps Operation.neg 1 = -1 := by
  have hlen : hugeBuffer.data.length = 2147483648 := by
    simp only [hugeBuffer, List.length_replicate]
  refine ⟨?_, hlen, ?_, by decide⟩
  · exact (forward_inplace_dispatch tableCodes intOps
      { one_blob_only := true, support_inplace := true, op_type := 1 } hugeBuffer
      Operation.neg (by decide) rfl).trans (unary_op_inplace_two_pow_31 _ _ hlen)
  · simp only [hugeBuffer]
    exact List.getElem?_replicate_of_lt (by decide)

/-- C6: for every operation code, supported or not, and every buffer,
`UnaryOp::forward_inplace` returns and leaves the buffer's dimensionality,
extents `w`, `h`, `c` and total element count unchanged. -/
theorem forward_inplace_keeps_shape {α : Type} (k : OperationCodes) (m : MathOps α)
    (self : UnaryOp) (a : Mat α) :
    ∃ st out, UnaryOp.forward_inplace k m self a = some (st, out) ∧
      out.dims = a.dims ∧ out.w = a.w ∧ out.h = a.h ∧ out.c = a.c ∧
      out.total = a.total := by
  rcases forward_inplace_cases k m self a with ⟨op, h⟩ | h
  · obtain ⟨r, hr, hrl, _⟩ := unary_op_inplace_spec op a
    exact ⟨0, _, h.trans hr, rfl, rfl, rfl, rfl, hrl⟩
  · exact ⟨0, a, h, rfl, rfl, rfl, rfl, rfl⟩

/-- C7: for every operation code that matches none of the sixteen
enumerators `UnaryOp::forward_inplace` tests, `forward_inplace` returns 0
and the buffer after the call is the buffer before the call, shape and
elements. -/
theorem forward_inplace_unsupported_noop {α : Type} (k : OperationCodes) (m : MathOps α)
    (self : UnaryOp) (a : Mat α) (hop : self.op_type ∉ k.inplaceCodes) :
    UnaryOp.forward_inplace k m self a = some (0, a) :=
  forward_inplace_of_not_mem k m self a hop

/-- Witness for C7: the code 16 on `[-2, 3, 0]`. -/
theorem forward_inplace_unsupported_noop_witness :
    UnaryOp.forward_inplace tableCodes intOps
        { one_blob_only := true, support_inplace := true, op_type := 16 }
        { dims := 1, w := 3, h := 1, c := 1, data := [-2, 3, 0] } =
      some (0, { dims := 1, w := 3, h := 1, c := 1, data := [-2, 3, 0] }) :=
  forward_inplace_unsupported_noop tableCodes intOps
    { one_blob_only := true, support_inplace := true, op_type := 16 }
    { dims := 1, w := 3, h := 1, c := 1, data := [-2, 3, 0] } (by decide)

theorem reciprocal_not_mem_forwardCodes {k : OperationCodes} (hk : k.Distinct) :
    k.Operation_RECIPROCAL ∉ k.forwardCodes := by
  unfold OperationCodes.Distinct OperationCodes.inplaceCodes at hk
  intro h
  exact (List.nodup_append.mp hk).2.2 h (List.mem_singleton_self _)

/-- C8 (amended): the reciprocal operation is supported only in place: with
the reciprocal operation code, the enumerators being pairwise different,
`UnaryOp::forward_inplace` returns 0 and replaces every element `x` of a
buffer of fewer than 2^31 elements by `1/x`, whereas `UnaryOp::forward`
treats the same code as unsupported: it returns 0 and leaves the output as
the caller passed it, computing no output element. -/
theorem reciprocal_only_inplace {α : Type} (k : OperationCodes) (m : MathOps α)
    (al : Allocator α) (self : UnaryOp) (a b : Mat α)
    (hk : k.Distinct) (hcode : self.op_type = k.Operation_RECIPROCAL)
    (hsize : a.total < 2147483648) :
    UnaryOp.forward_inplace k m self a =
        some (0, { a with data := a.data.map (fun x => m.div m.one x) }) ∧
      UnaryOp.forward k m al self a b = some (0, b) := by
  constructor
  · exact (forward_inplace_dispatch k m self a Operation.reciprocal hk hcode).trans
      (unary_op_inplace_small _ a hsize)
  · apply forward_of_not_mem
    rw [hcode]
    exact reciprocal_not_mem_forwardCodes hk

/-- Witness for C8: the reciprocal of `[1, -1]`. -/
theorem reciprocal_only_inplace_witness :
    UnaryOp.forward_inplace tableCodes intOps
        { one_blob_only := true, support_inplace := true, op_type := 15 }
        { dims := 1, w := 2, h := 1, c := 1, data := [1, -1] } =
        some (0, { dims := 1, w := 2, h := 1, c := 1, data := [1, -1] }) ∧
      UnaryOp.forward tableCodes intOps (fillAllocator 0)
        { one_blob_only := true, support_inplace := true, op_type := 15 }
        { dims := 1, w := 2, h := 1, c := 1, data := [1, -1] } (Mat.nil Int) =
        some (0, Mat.nil Int) :=
  have h := reciprocal_only_inplace tableCodes intOps (fillAllocator 0)
    { one_blob_only := true, support_inplace := true, op_type := 15 }
    { dims := 1, w := 2, h := 1, c := 1, data := [1, -1] } (Mat.nil Int)
    (by decide) rfl (by decide)
  ⟨h.1.trans (by decide), h.2⟩

/-- C8 (counterexample): a buffer of `32768 * 65536 = 2^31` elements, all 2,
with the reciprocal operation code: `size` is negative, the loop does not
run and `forward_inplace` returns 0 with the buffer unchanged; element 0 is
still 2, not `1/2`. -/
theorem huge_buffer_reciprocal_skips_loop :
    UnaryOp.forward_inplace tableCodes intOps
        { one_blob_only := true, support_inplace := true, op_type := 15 } hugeBufferOfTwos =
      some (0, hugeBufferOfTwos) ∧
      hugeBufferOfTwos.total = 2147483648 ∧ hugeBufferOfTwos.data[0]? = some 2 ∧
      intOps.div intOps.one 2 = 0 := by
  have hlen : hugeBufferOfTwos.data.length = 2147483648 := by
    simp only [hugeBufferOfTwos, List.length_replicate]
  refine ⟨?_, hlen, ?_, by decide⟩
  · exact (forward_inplace_dispatch tableCodes intOps
      { one_blob_only := true, support_inplace := true, op_type := 15 } hugeBufferOfTwos
      Operation.reciprocal (by decide) rfl).trans (unary_op_inplace_two_pow_31 _ _ hlen)
  · simp only [hugeBufferOfTwos]
    exact List.getElem?_replicate_of_lt (by decide)

/-- C9: element values never cause a failure. For every operation code and
every buffer `UnaryOp::forward_inplace` returns 0; and for two well-formed
input tensors of rank 1, 2 or 3, whatever their elements, the previous
contents of the outputs and the allocation-time contents of fresh storage,
`UnaryOp::forward` with the same operation code and the same outcome of the
allocation (the created output is empty for both or for neither, which for
inputs of one shape is whether the allocation succeeded) returns the same
status. -/
theorem element_values_never_fail {α : Type} (k : OperationCodes) (m : MathOps α)
    (al al2 : Allocator α) (self : UnaryOp) (buf a a2 b b2 : Mat α)
    (hwf : a.WellFormed) (hwf2 : a2.WellFormed)
    (hal : (unary_op_created al2 a2).empty = (unary_op_created al a).empty) :
    (∃ out, UnaryOp.forward_inplace k m self buf = some (0, out)) ∧
      ∃ st out out2, UnaryOp.forward k m al self a b = some (st, out) ∧
        UnaryOp.forward k m al2 self a2 b2 = some (st, out2) := by
  constructor
  · rcases forward_inplace_cases k m self buf with ⟨op, h⟩ | h
    · obtain ⟨r, hr, _, _⟩ := unary_op_inplace_spec op buf
      exact ⟨_, h.trans hr⟩
    · exact ⟨buf, h⟩
  · by_cases hop : self.op_type ∈ k.forwardCodes
    · obtain ⟨op, hf⟩ := forward_of_mem k m al self a b hop
      obtain ⟨op2, hf2⟩ := forward_of_mem k m al2 self a2 b2 hop
      cases hs : (unary_op_created al a).empty
      · obtain ⟨r, hr, _, _⟩ := unary_op_ok al op a b hwf hs
        obtain ⟨r2, hr2, _, _⟩ := unary_op_ok al2 op2 a2 b2 hwf2 (hal.trans hs)
        exact ⟨0, _, _, hf.trans hr, hf2.trans hr2⟩
      · exact ⟨-100, _, _, hf.trans (unary_op_fail al op a b (wellFormed_rank hwf) hs),
          hf2.trans (unary_op_fail al2 op2 a2 b2 (wellFormed_rank hwf2) (hal.trans hs))⟩
    · exact ⟨0, b, b2, forward_of_not_mem k m al self a b hop,
        forward_of_not_mem k m al2 self a2 b2 hop⟩

/-- Witness for C9: the square root of a buffer that holds a negative
value, and of the tensors `[4, 9]` and `[-1, -4]`. -/
theorem element_values_never_fail_witness :
    (∃ out, UnaryOp.forward_inplace tableCodes intOps
        { one_blob_only := true, support_inplace := true, op_type := 5 }
        { dims := 1, w := 2, h := 1, c := 1, data := [-1, 5] } = some (0, out)) ∧
      ∃ st out out2, UnaryOp.forward tableCodes intOps (fillAllocator 0)
          { one_blob_only := true, support_inplace := true, op_type := 5 }
          { dims := 1, w := 2, h := 1, c := 1, data := [4, 9] } (Mat.nil Int) =
          some (st, out) ∧
        UnaryOp.forward tableCodes intOps (fillAllocator 7)
          { one_blob_only := true, support_inplace := true, op_type := 5 }
          { dims := 1, w := 2, h := 1, c := 1, data := [-1, -4] }
          { dims := 1, w := 1, h := 1, c := 1, data := [3] } = some (st, out2) :=
  element_values_never_fail tableCodes intOps (fillAllocator 0) (fillAllocator 7)
    { one_blob_only := true, support_inplace := true, op_type := 5 }
    { dims := 1, w := 2, h := 1, c := 1, data := [-1, 5] }
    { dims := 1, w := 2, h := 1, c := 1, data := [4, 9] }
    { dims := 1, w := 2, h := 1, c := 1, data := [-1, -4] } (Mat.nil Int)
    { dims := 1, w := 1, h := 1, c := 1, data := [3] }
    (by decide) (by decide) (by decide)

/-! ## Loading the operation code: claims -/

theorem int_of_list_bytes_of_int (n : Int) (hlo : -2147483648 ≤ n) (hhi : n < 2147483648)
    (rest : List Nat) : int_of_list (bytes_of_int n ++ rest) = n := by
  have hu : ((n % 4294967296).toNat : Int) = n % 4294967296 :=
    Int.toNat_of_nonneg (Int.emod_nonneg _ (by decide))
  have hlt : (n % 4294967296).toNat < 4294967296 := by omega
  unfold bytes_of_int
  simp only [List.cons_append, int_of_list, int_of_bytes]
  generalize (n % 4294967296).toNat = u at hu hlt ⊢
  have hsum : u % 256 % 256 + 256 * (u / 256 % 256 % 256) + 65536 * (u / 65536 % 256 % 256) +
      16777216 * (u / 16777216 % 256 % 256) = u := by omega
  rw [hsum, wrap32_eq_emod, Int.ofNat_eq_coe, hu]
  omega

/-- C10 (amended): the Operation Selector does not validate the loaded
operation code. Whatever 32-bit integer `n` the parameter source holds,
`load_param` from memory and `load_param_bin` store it as the operation code
and return 0, and the text-stream `load_param` returns 0 and stores the
integer `fscanf` converted whenever it converted one; no variant compares
the integer with the supported operation codes. -/
theorem load_param_stores_unvalidated (self : UnaryOp) (n : Int) (rest text : List Nat)
    (hlo : -2147483648 ≤ n) (hhi : n < 2147483648) :
    UnaryOp.load_param_mem self (bytes_of_int n ++ rest) 0 =
        some (0, { self with op_type := n }, 4) ∧
      UnaryOp.load_param_bin self (bytes_of_int n ++ rest) =
        (0, { self with op_type := n }, rest) ∧
      ((fscanf_d text).1 = 1 →
        UnaryOp.load_param self text =
          (0, { self with op_type := (fscanf_d text).2.1 }, (fscanf_d text).2.2)) := by
  have hval := int_of_list_bytes_of_int n hlo hhi rest
  have hlen : 4 ≤ (bytes_of_int n ++ rest).length := by
    simp [bytes_of_int]
  refine ⟨?_, ?_, ?_⟩
  · unfold UnaryOp.load_param_mem
    rw [if_pos (by omega), List.drop_zero, hval]
  · unfold UnaryOp.load_param_bin fread_int
    rw [if_pos hlen, hval]
    rfl
  · intro h
    unfold UnaryOp.load_param
    simp [h]

/-- Witness for C10: the integer 1000, as four bytes and as the text
`1000`. -/
theorem load_param_stores_unvalidated_witness :
    UnaryOp.load_param_mem (UnaryOp.ctor 0) [232, 3, 0, 0, 9] 0 =
        some (0, { one_blob_only := true, support_inplace := true, op_type := 1000 }, 4) ∧
      UnaryOp.load_param_bin (UnaryOp.ctor 0) [232, 3, 0, 0, 9] =
        (0, { one_blob_only := true, support_inplace := true, op_type := 1000 }, [9]) ∧
      ((fscanf_d [49, 48, 48, 48, 10]).1 = 1 →
        UnaryOp.load_param (UnaryOp.ctor 0) [49, 48, 48, 48, 10] =
          (0, { one_blob_only := true, support_inplace := true, op_type := 1000 }, [10])) :=
  load_param_stores_unvalidated (UnaryOp.ctor 0) 1000 [9] [49, 48, 48, 48, 10]
    (by decide) (by decide)

/-- C10 (counterexample): 1000 is none of the sixteen supported operation
codes, and each of the three variants of `load_param`, given 1000, returns 0
with 1000 stored as the operation code. -/
theorem load_param_accepts_unsupported :
    (1000 : Int) ∉ tableCodes.inplaceCodes ∧
      UnaryOp.load_param (UnaryOp.ctor 0) [49, 48, 48, 48, 10] =
        (0, { one_blob_only := true, support_inplace := true, op_type := 1000 }, [10]) ∧
      UnaryOp.load_param_bin (UnaryOp.ctor 0) [232, 3, 0, 0] =
        (0, { one_blob_only := true, support_inplace := true, op_type := 1000 }, []) ∧
      UnaryOp.load_param_mem (UnaryOp.ctor 0) [232, 3, 0, 0] 0 =
        some (0, { one_blob_only := true, support_inplace := true, op_type := 1000 }, 4) := by
  decide

/-! ## Loading the operation code: the three variants -/

theorem int_of_bytes_eq_le_int32 (b0 b1 b2 b3 : Nat) (h0 : b0 < 256) (h1 : b1 < 256)
    (h2 : b2 < 256) (h3 : b3 < 256) : int_of_bytes b0 b1 b2 b3 = le_int32 b0 b1 b2 b3 := by
  unfold int_of_bytes le_int32
  rw [Nat.mod_eq_of_lt h0, Nat.mod_eq_of_lt h1, Nat.mod_eq_of_lt h2, Nat.mod_eq_of_lt h3,
    wrap32_eq_emod]
  simp only [Int.ofNat_eq_coe]
  split <;> omega

/-- C11: for every in-memory buffer that holds at least 4 bytes at the read
position, `UnaryOp::load_param(mem)` returns 0, stores as the operation code
the signed 32-bit integer the four bytes encode little-endian, keeps the
other fields of the layer and advances the read position by exactly 4. The
buffer is read through a pointer to `const`: it is an argument of the call
and no part of its result. -/
theorem load_param_mem_reads_four_bytes (self : UnaryOp) (pre post : List Nat)
    (b0 b1 b2 b3 : Nat) (h0 : b0 < 256) (h1 : b1 < 256) (h2 : b2 < 256) (h3 : b3 < 256) :
    UnaryOp.load_param_mem self (pre ++ b0 :: b1 :: b2 :: b3 :: post) pre.length =
      some (0, { self with op_type := le_int32 b0 b1 b2 b3 }, pre.length + 4) := by
  unfold UnaryOp.load_param_mem
  have hlen : pre.length + 4 ≤ (pre ++ b0 :: b1 :: b2 :: b3 :: post).length := by
    simp only [List.length_append, List.length_cons]
    omega
  have hval : int_of_list (b0 :: b1 :: b2 :: b3 :: post) = le_int32 b0 b1 b2 b3 :=
    int_of_bytes_eq_le_int32 b0 b1 b2 b3 h0 h1 h2 h3
  rw [if_pos hlen, List.drop_left, hval]

/-- Witness for C11: the bytes `e8 03 00 00` after one byte already read give
1000, and `fe ff ff ff` give -2. -/
theorem load_param_mem_reads_four_bytes_witness :
    UnaryOp.load_param_mem (UnaryOp.ctor 7) [9, 232, 3, 0, 0, 5] 1 =
        some (0, { one_blob_only := true, support_inplace := true, op_type := 1000 }, 5) ∧
      UnaryOp.load_param_mem (UnaryOp.ctor 7) [254, 255, 255, 255] 0 =
        some (0, { one_blob_only := true, support_inplace := true, op_type := -2 }, 4) :=
  ⟨load_param_mem_reads_four_bytes (UnaryOp.ctor 7) [9] [5] 232 3 0 0
      (by decide) (by decide) (by decide) (by decide),
    load_param_mem_reads_four_bytes (UnaryOp.ctor 7) [] [] 254 255 255 255
      (by decide) (by decide) (by decide) (by decide)⟩

/-- C12: the text-stream `UnaryOp::load_param` returns 0 if and only if
`fscanf` converted exactly one integer, and then the stored operation code
is that integer; when no integer was converted it returns -1 and keeps the
layer as it was. -/
theorem load_param_text_status (self : UnaryOp) (paramfp : List Nat) :
    ((self.load_param paramfp).1 = 0 ↔ (fscanf_d paramfp).1 = 1) ∧
      ((fscanf_d paramfp).1 = 1 →
        (self.load_param paramfp).2.1 = { self with op_type := (fscanf_d paramfp).2.1 }) ∧
      ((fscanf_d paramfp).1 ≠ 1 →
        (self.load_param paramfp).1 = -1 ∧ (self.load_param paramfp).2.1 = self) := by
  unfold UnaryOp.load_param
  by_cases h : (fscanf_d paramfp).1 = 1
  · simp [h]
  · simp [h]

/-- C17: `UnaryOp::load_param_bin` returns 0 for every stream; for a stream
of fewer than 4 bytes `fread` reads no item, and the status is 0 all the
same. -/
theorem load_param_bin_always_succeeds (self : UnaryOp) (paramfp : List Nat) :
    (self.load_param_bin paramfp).1 = 0 ∧
      (paramfp.length < 4 →
        (fread_int self.op_type paramfp).2.2 = 0 ∧ (self.load_param_bin paramfp).1 = 0) := by
  refine ⟨rfl, fun h => ⟨?_, rfl⟩⟩
  unfold fread_int
  rw [if_neg (by omega)]

/-! ## Order of the iterations -/

theorem run_loop_cons {α : Type} (step : List α → Nat → Option (List α)) (i : Nat)
    (rest : List Nat) (l : List α) :
    run_loop step (i :: rest) l = (step l i).bind (run_loop step rest) := by
  cases h : step l i <;> simp [run_loop, h]

/-- Steps that commute pairwise give the same result in every order of a
duplicate-free list of indices. -/
theorem run_loop_perm {α : Type} (step : List α → Nat → Option (List α))
    (hcomm : ∀ (i j : Nat) (l : List α), i ≠ j →
      (step l i).bind (fun l1 => step l1 j) = (step l j).bind (fun l1 => step l1 i))
    {o1 o2 : List Nat} (hp : o1.Perm o2) :
    o1.Nodup → ∀ l : List α, run_loop step o1 l = run_loop step o2 l := by
  induction hp with
  | nil => intro _ l; rfl
  | cons x _ ih =>
    intro hnd l
    rw [run_loop_cons, run_loop_cons]
    have hnd1 := (List.nodup_cons.mp hnd).2
    cases step l x with
    | none => rfl
    | some l1 => exact ih hnd1 l1
  | swap x y rest =>
    intro hnd l
    have hxy : y ≠ x := by
      intro h
      have := (List.nodup_cons.mp hnd).1
      exact this (by rw [h]; exact List.mem_cons_self _ _)
    have hx : run_loop step (x :: rest) = fun l1 => (step l1 x).bind (run_loop step rest) :=
      funext (run_loop_cons step x rest)
    have hy : run_loop step (y :: rest) = fun l1 => (step l1 y).bind (run_loop step rest) :=
      funext (run_loop_cons step y rest)
    rw [run_loop_cons, run_loop_cons, hx, hy]
    have h := hcomm y x l hxy
    have e1 : (step l y).bind (fun l1 => (step l1 x).bind (run_loop step rest)) =
        ((step l y).bind (fun l1 => step l1 x)).bind (run_loop step rest) := by
      cases step l y <;> rfl
    have e2 : (step l x).bind (fun l1 => (step l1 y).bind (run_loop step rest)) =
        ((step l x).bind (fun l1 => step l1 y)).bind (run_loop step rest) := by
      cases step l x <;> rfl
    rw [e1, e2, h]
  | trans h1 _ ih1 ih2 =>
    intro hnd l
    rw [ih1 hnd l, ih2 (h1.nodup hnd) l]

theorem unary_op_step_comm {α : Type} (op : α → α) (ptr : List α) (i j : Nat) (l : List α)
    (hij : i ≠ j) :
    (unary_op_step op ptr l i).bind (fun l1 => unary_op_step op ptr l1 j) =
      (unary_op_step op ptr l j).bind (fun l1 => unary_op_step op ptr l1 i) := by
  unfold unary_op_step
  cases ptr[i]? with
  | none => cases ptr[j]? with
    | none => rfl
    | some y => by_cases hj : j < l.length <;> simp [hj]
  | some x => cases ptr[j]? with
    | none => by_cases hi : i < l.length <;> simp [hi]
    | some y =>
      by_cases hi : i < l.length <;> by_cases hj : j < l.length <;>
        simp [hi, hj, List.set_comm _ _ _ hij]

theorem unary_op_inplace_step_comm {α : Type} (op : α → α) (i j : Nat) (l : List α)
    (hij : i ≠ j) :
    (unary_op_inplace_step op l i).bind (fun l1 => unary_op_inplace_step op l1 j) =
      (unary_op_inplace_step op l j).bind (fun l1 => unary_op_inplace_step op l1 i) := by
  unfold unary_op_inplace_step
  by_cases hi : i < l.length <;> by_cases hj : j < l.length
  · simp [List.getElem?_eq_getElem hi, List.getElem?_eq_getElem hj,
      List.getElem?_set_ne hij, List.getElem?_set_ne hij.symm, List.set_comm _ _ _ hij]
  · have hj2 : l[j]? = none := List.getElem?_eq_none (by omega)
    simp [List.getElem?_eq_getElem hi, hj2, List.getElem?_set_ne hij]
  · have hi2 : l[i]? = none := List.getElem?_eq_none (by omega)
    simp [List.getElem?_eq_getElem hj, hi2, List.getElem?_set_ne hij.symm]
  · have hi2 : l[i]? = none := List.getElem?_eq_none (by omega)
    have hj2 : l[j]? = none := List.getElem?_eq_none (by omega)
    simp [hi2, hj2]

theorem loop_indices_nodup (size : Int) : (loop_indices size).Nodup := by
  unfold loop_indices
  exact List.nodup_range _

theorem unary_op_tail_eq_in_order {α : Type} (op : α → α) (a b : Mat α) (size : Int) :
    unary_op_tail op a b size = unary_op_tail_in_order op a b (loop_indices size) := rfl

theorem unary_op_inplace_eq_in_order {α : Type} (op : α → α) (a : Mat α) :
    unary_op_inplace op a =
      unary_op_inplace_in_order op a (loop_indices (wrap32 (a.total : Int))) := rfl

/-- C16: the element loops are order-independent. With the iterations of the
loop of `unary_op` executed in any permutation of the indices `[0, size)`,
or chunk after chunk for any chunks that together are a permutation of
`[0, size)`, the loop gives exactly the result of the ascending loop, and the
same holds for the loop of `unary_op_inplace`. -/
theorem element_loop_order_independent {α : Type} (op : α → α) (a b : Mat α) (size : Int)
    (order order_inplace : List Nat)
    (horder : order.Perm (loop_indices size))
    (hinplace : order_inplace.Perm (loop_indices (wrap32 (a.total : Int)))) :
    unary_op_tail_in_order op a b order = unary_op_tail op a b size ∧
      unary_op_inplace_in_order op a order_inplace = unary_op_inplace op a ∧
      (∀ chunks : List (List Nat), chunks.flatten.Perm (loop_indices size) →
        unary_op_tail_in_order op a b chunks.flatten = unary_op_tail op a b size) ∧
      (∀ chunks : List (List Nat),
        chunks.flatten.Perm (loop_indices (wrap32 (a.total : Int))) →
        unary_op_inplace_in_order op a chunks.flatten = unary_op_inplace op a) := by
  have key1 : ∀ o : List Nat, o.Perm (loop_indices size) →
      unary_op_tail_in_order op a b o = unary_op_tail op a b size := by
    intro o ho
    rw [unary_op_tail_eq_in_order]
    unfold unary_op_tail_in_order
    rw [run_loop_perm (unary_op_step op a.data) (unary_op_step_comm op a.data) ho
      (ho.symm.nodup (loop_indices_nodup size)) b.data]
  have key2 : ∀ o : List Nat, o.Perm (loop_indices (wrap32 (a.total : Int))) →
      unary_op_inplace_in_order op a o = unary_op_inplace op a := by
    intro o ho
    rw [unary_op_inplace_eq_in_order]
    unfold unary_op_inplace_in_order
    rw [run_loop_perm (unary_op_inplace_step op) (unary_op_inplace_step_comm op) ho
      (ho.symm.nodup (loop_indices_nodup _)) a.data]
  exact ⟨key1 order horder, key2 order_inplace hinplace, fun c hc => key1 _ hc,
    fun c hc => key2 _ hc⟩

/-- Witness for C16: three elements negated in the order 2, 0, 1, in place
and into a fresh output. -/
theorem element_loop_order_independent_witness :
    unary_op_tail_in_order (unary_op_neg intOps)
        { dims := 1, w := 3, h := 1, c := 1, data := [4, 9, -1] }
        { dims := 1, w := 3, h := 1, c := 1, data := [0, 0, 0] } [2, 0, 1] =
        some (0, { dims := 1, w := 3, h := 1, c := 1, data := [-4, -9, 1] }) ∧
      unary_op_inplace_in_order (unary_op_neg intOps)
        { dims := 1, w := 3, h := 1, c := 1, data := [4, 9, -1] } [2, 0, 1] =
        some (0, { dims := 1, w := 3, h := 1, c := 1, data := [-4, -9, 1] }) :=
  have h := element_loop_order_independent (unary_op_neg intOps)
    { dims := 1, w := 3, h := 1, c := 1, data := [4, 9, -1] }
    { dims := 1, w := 3, h := 1, c := 1, data := [0, 0, 0] } 3 [2, 0, 1] [2, 0, 1]
    (by decide) (by decide)
  ⟨h.1.trans (by decide), h.2.1.trans (by decide)⟩

/-! ## The two paths side by side, and bounds -/

theorem wellFormed_total_lt {α : Type} {a : Mat α} (hwf : a.WellFormed)
    (hsize : a.w * a.h * a.c < 2147483648) : a.data.length < 2147483648 := by
  have hl : (a.data.length : Int) = a.w * a.h * a.c := hwf.2.2.2.2
  omega

/-- On a well-formed tensor of fewer than 2^31 elements, with the output
allocated, `unary_op` returns 0 and the output is the input's shape with
the input's elements mapped. -/
theorem unary_op_small {α : Type} (al : Allocator α) (op : α → α) (a b : Mat α)
    (hwf : a.WellFormed) (hsize : a.w * a.h * a.c < 2147483648)
    (halloc : (unary_op_created al a).empty = false) :
    unary_op al op a b =
      some (0, { dims := a.dims, w := a.w, h := a.h, c := a.c, data := a.data.map op }) := by
  obtain ⟨r, hr, hrl, hget⟩ := unary_op_ok al op a b hwf halloc
  have hlt := wellFormed_total_lt hwf hsize
  have hsz : wrap32 (a.data.length : Int) = (a.data.length : Int) :=
    wrap32_eq_self (by omega) (by omega)
  have hmap : r = a.data.map op := by
    apply List.ext_getElem?
    intro i
    rw [hget i, hsz, List.getElem?_map]
    by_cases hi : i < a.data.length
    · have : (i : Int) < (a.data.length : Int) := by omega
      rw [if_pos this]
    · have h1 : ¬ (i : Int) < (a.data.length : Int) := by omega
      have h2 : (al.storage a.data.length)[i]? = none :=
        List.getElem?_eq_none (by
          have := storage_length al a.data.length
          split at this <;> omega)
      have h3 : a.data[i]? = none := List.getElem?_eq_none (by omega)
      rw [if_neg h1, h2, h3]
      rfl
  rw [hr, hmap]

/-- C15 (amended): for every operation code supported by both paths, the
enumerators being pairwise different, and every well-formed input tensor of
rank 1, 2 or 3 of fewer than 2^31 elements for which the allocation
succeeds, `UnaryOp::forward` and `UnaryOp::forward_inplace` on a copy of the
input both return 0 with the same tensor, shape and elements index by
index, and the element count `w*h*c` the allocating path iterates is the
total element count the in-place path iterates. -/
theorem forward_agrees_with_inplace {α : Type} (k : OperationCodes) (m : MathOps α)
    (al : Allocator α) (self : UnaryOp) (a b : Mat α) (p : Operation)
    (hk : k.Distinct) (hp : p ≠ Operation.reciprocal) (hcode : self.op_type = k.code p)
    (hwf : a.WellFormed) (hsize : a.w * a.h * a.c < 2147483648)
    (halloc : (unary_op_created al a).empty = false) :
    (∃ out, UnaryOp.forward k m al self a b = some (0, out) ∧
        UnaryOp.forward_inplace k m self a = some (0, out) ∧
        out.data = a.data.map (formula m p)) ∧
      mul32 (mul32 a.w a.h) a.c = wrap32 (a.total : Int) ∧
      wrap32 (a.total : Int) = a.w * a.h * a.c ∧
      (a.total : Int) = a.w * a.h * a.c := by
  have hl : (a.data.length : Int) = a.w * a.h * a.c := hwf.2.2.2.2
  have hlt := wellFormed_total_lt hwf hsize
  refine ⟨⟨_, (forward_dispatch k m al self a b p hk hp hcode).trans
      (unary_op_small al (formula m p) a b hwf hsize halloc),
    (forward_inplace_dispatch k m self a p hk hcode).trans
      (unary_op_inplace_small (formula m p) a hlt), rfl⟩, ?_, ?_, hl⟩
  · rw [mul32_mul32]
    unfold Mat.total
    rw [hl]
  · exact wellFormed_size hwf hsize

/-- Witness for C15: `neg` on a tensor of shape (2, 2, 3). -/
theorem forward_agrees_with_inplace_witness :
    ∃ out, UnaryOp.forward tableCodes intOps (fillAllocator 0)
        { one_blob_only := true, support_inplace := true, op_type := 1 }
        { dims := 3, w := 2, h := 2, c := 3, data := [1, 2, 3, 4, 5, 6, 7, 8, 9, 10, 11, 12] }
        (Mat.nil Int) = some (0, out) ∧
      UnaryOp.forward_inplace tableCodes intOps
        { one_blob_only := true, support_inplace := true, op_type := 1 }
        { dims := 3, w := 2, h := 2, c := 3, data := [1, 2, 3, 4, 5, 6, 7, 8, 9, 10, 11, 12] } =
        some (0, out) ∧
      out.data = [-1, -2, -3, -4, -5, -6, -7, -8, -9, -10, -11, -12] :=
  have h := forward_agrees_with_inplace tableCodes intOps (fillAllocator 0)
    { one_blob_only := true, support_inplace := true, op_type := 1 }
    { dims := 3, w := 2, h := 2, c := 3, data := [1, 2, 3, 4, 5, 6, 7, 8, 9, 10, 11, 12] }
    (Mat.nil Int) Operation.neg (by decide) (by decide) rfl (by decide) (by decide) (by decide)
  h.1.elim fun out ho => ⟨out, ho.1, ho.2.1, ho.2.2.trans (by decide)⟩

/-- C15 (counterexample): the well-formed tensor of `1024 * 1024 * 2048`
elements, all 1, with the operation `neg` and an allocation that succeeds.
Both paths reduce the element count to a negative `int` and skip the loop:
`forward` returns 0 with output element 0 at its allocation-time value 0,
`forward_inplace` returns 0 with element 0 of the copy still 1. -/
theorem huge_tensor_paths_disagree :
    hugeTensor.WellFormed ∧
      (unary_op_created (fillAllocator (0 : Int)) hugeTensor).empty = false ∧
      ∃ out inp, UnaryOp.forward tableCodes intOps (fillAllocator 0)
          { one_blob_only := true, support_inplace := true, op_type := 1 }
          hugeTensor (Mat.nil Int) = some (0, out) ∧
        UnaryOp.forward_inplace tableCodes intOps
          { one_blob_only := true, support_inplace := true, op_type := 1 } hugeTensor =
          some (0, inp) ∧
        out.data[0]? = some 0 ∧ inp.data[0]? = some 1 := by
  have hne : (unary_op_created (fillAllocator (0 : Int)) hugeTensor).empty = false :=
    fillAllocator_created_not_empty 0 hugeTensor hugeTensor_wellFormed
      (by rw [hugeTensor_length]; decide)
  refine ⟨hugeTensor_wellFormed, hne, ?_⟩
  obtain ⟨r, hr, _, hget⟩ := unary_op_ok (fillAllocator (0 : Int))
    (formula intOps Operation.neg) hugeTensor (Mat.nil Int) hugeTensor_wellFormed hne
  refine ⟨_, hugeTensor, (forward_dispatch tableCodes intOps (fillAllocator 0)
      { one_blob_only := true, support_inplace := true, op_type := 1 }
      hugeTensor (Mat.nil Int) Operation.neg (by decide) (by decide) rfl).trans hr,
    (forward_inplace_dispatch tableCodes intOps
      { one_blob_only := true, support_inplace := true, op_type := 1 } hugeTensor
      Operation.neg (by decide) rfl).trans
      (unary_op_inplace_two_pow_31 _ _ hugeTensor_length), ?_, ?_⟩
  · show r[0]? = some 0
    rw [hget 0, hugeTensor_length, wrap32_two_pow_31, if_neg (by decide)]
    exact fillAllocator_storage_getElem 0 _ 0 (by decide)
  · simp only [hugeTensor]
    exact List.getElem?_replicate_of_lt (by decide)

/-- C18: bounds safety of the allocating path. For every well-formed input
tensor of rank 1, 2 or 3 whose element count `w*h*c` fits a 32-bit `int`,
with the output allocated, the loop of `unary_op` runs over exactly the
indices `0 <= i < w*h*c`, each of them lies within the input's and within
the created output's elements, and `unary_op` returns 0 without an access
out of bounds. For an input of any other rank `unary_op` creates no output
and runs the loop on the output tensor as the caller passed it. -/
theorem unary_op_bounds_safe {α : Type} (al : Allocator α) (op : α → α) (a b : Mat α)
    (hwf : a.WellFormed) (hsize : a.w * a.h * a.c < 2147483648)
    (halloc : (unary_op_created al a).empty = false) :
    loop_indices (mul32 (mul32 a.w a.h) a.c) = List.range (a.w * a.h * a.c).toNat ∧
      (∀ i : Nat, (i : Int) < a.w * a.h * a.c →
        i < a.data.length ∧ i < (unary_op_created al a).data.length) ∧
      (∃ out, unary_op al op a b = some (0, out)) ∧
      (∀ a2 b2 : Mat α, a2.dims ≠ 1 → a2.dims ≠ 2 → a2.dims ≠ 3 →
        unary_op al op a2 b2 =
          unary_op_tail op a2 b2 (mul32 (mul32 a2.w a2.h) a2.c)) := by
  have hl : (a.data.length : Int) = a.w * a.h * a.c := hwf.2.2.2.2
  have hcr := unary_op_created_wellFormed al a hwf
  have hne : al.storage a.data.length ≠ [] := by
    intro h
    rw [hcr, h] at halloc
    exact absurd halloc (by simp [Mat.empty])
  have hlen := storage_length_of_ne_nil al _ hne
  refine ⟨?_, ?_, ⟨_, unary_op_small al op a b hwf hsize halloc⟩, ?_⟩
  · rw [mul32_mul32, ← hl, wrap32_eq_self (by omega) (by omega)]
    rfl
  · intro i hi
    rw [hcr]
    show i < a.data.length ∧ i < (al.storage a.data.length).length
    rw [hlen]
    omega
  · intro a2 b2 h1 h2 h3
    unfold unary_op
    simp only [if_neg h3, if_neg h2, if_neg h1]

/-- Witness for C18: a tensor of shape (2, 2, 3); and an input of rank 4 with
two elements and a default-constructed output, where the first write is out
of bounds. -/
theorem unary_op_bounds_safe_witness :
    (∀ i : Nat, (i : Int) < 2 * 2 * 3 → i < 12 ∧
        i < (unary_op_created (fillAllocator (0 : Int))
          { dims := 3, w := 2, h := 2, c := 3,
            data := [1, 2, 3, 4, 5, 6, 7, 8, 9, 10, 11, 12] }).data.length) ∧
      unary_op (fillAllocator (0 : Int)) (unary_op_neg intOps)
        { dims := 4, w := 2, h := 1, c := 1, data := [4, 9] } (Mat.nil Int) = none :=
  ⟨(unary_op_bounds_safe (fillAllocator (0 : Int)) (unary_op_neg intOps)
      { dims := 3, w := 2, h := 2, c := 3, data := [1, 2, 3, 4, 5, 6, 7, 8, 9, 10, 11, 12] }
      (Mat.nil Int) (by decide) (by decide) (by decide)).2.1,
    by decide⟩

/-! ## The allocating path on memory -/

theorem unary_op_mem_step_frame {α : Type} (op : α → α) (ptr outptr : Option Nat)
    (mem mem1 : Memory α) (i : Nat) (h : unary_op_mem_step op ptr outptr mem i = some mem1)
    (p : Nat) (hp : outptr ≠ some p) : mem1[p]? = mem[p]? := by
  unfold unary_op_mem_step at h
  cases ptr with
  | none => simp at h
  | some pa =>
    cases outptr with
    | none => simp at h
    | some pb =>
      have hne : pb ≠ p := fun e => hp (by rw [e])
      cases h1 : mem[pa]? with
      | none => simp [h1] at h
      | some src =>
        cases h2 : mem[pb]? with
        | none => simp [h1, h2] at h
        | some dst =>
          cases h3 : unary_op_step op src dst i with
          | none => simp [h1, h2, h3] at h
          | some out =>
            simp only [h1, h2, h3, Option.some.injEq] at h
            rw [← h]
            exact List.getElem?_set_ne hne

theorem run_loop_mem_frame {α : Type} (op : α → α) (ptr outptr : Option Nat) (p : Nat)
    (hp : outptr ≠ some p) :
    ∀ (order : List Nat) (mem mem1 : Memory α),
      run_loop (unary_op_mem_step op ptr outptr) order mem = some mem1 →
      mem1[p]? = mem[p]? := by
  intro order
  induction order with
  | nil =>
    intro mem mem1 h
    simp only [run_loop, Option.some.injEq] at h
    rw [h]
  | cons i rest ih =>
    intro mem mem1 h
    rw [run_loop_cons] at h
    cases hs : unary_op_mem_step op ptr outptr mem i with
    | none => simp [hs] at h
    | some mem2 =>
      simp only [hs, Option.some_bind] at h
      rw [ih mem2 mem1 h]
      exact unary_op_mem_step_frame op ptr outptr mem mem2 i hs p hp

theorem unary_op_mem_tail_frame {α : Type} (op : α → α) (a b : MatRef) (mem : Memory α)
    (size : Int) (st : Int) (b1 : MatRef) (mem1 : Memory α)
    (h : unary_op_mem_tail op a b mem size = some (st, b1, mem1))
    (p : Nat) (hp : b.data ≠ some p) : mem1[p]? = mem[p]? := by
  unfold unary_op_mem_tail at h
  cases hr : run_loop (unary_op_mem_step op a.data b.data) (loop_indices size) mem with
  | none => simp [hr] at h
  | some mem2 =>
    simp only [hr, Option.some.injEq, Prod.mk.injEq] at h
    rw [← h.2.2]
    exact run_loop_mem_frame op a.data b.data p hp _ mem mem2 hr

theorem place_frame {α : Type} (t : Mat α) (mem : Memory α) (p : Nat) (hp : p < mem.length) :
    (MatRef.place t mem).2[p]? = mem[p]? ∧ (MatRef.place t mem).1.data ≠ some p := by
  unfold MatRef.place
  cases t.empty with
  | true => exact ⟨rfl, by simp⟩
  | false =>
    refine ⟨List.getElem?_append_left hp, ?_⟩
    simp only [Bool.false_eq_true, if_false, ne_eq, Option.some.injEq]
    omega

theorem created_frame {α : Type} (op : α → α) (a : MatRef) (t : Mat α) (mem : Memory α)
    (size : Int) (st : Int) (b1 : MatRef) (mem1 : Memory α)
    (h : (if (MatRef.place t mem).1.data.isNone then
        some (-100, (MatRef.place t mem).1, (MatRef.place t mem).2)
      else unary_op_mem_tail op a (MatRef.place t mem).1 (MatRef.place t mem).2 size) =
      some (st, b1, mem1))
    (p : Nat) (hp : p < mem.length) : mem1[p]? = mem[p]? := by
  obtain ⟨hf, hd⟩ := place_frame t mem p hp
  by_cases he : (MatRef.place t mem).1.data.isNone = true
  · rw [if_pos he] at h
    simp only [Option.some.injEq, Prod.mk.injEq] at h
    rw [← h.2.2]
    exact hf
  · rw [if_neg he] at h
    rw [unary_op_mem_tail_frame op a _ _ size st b1 mem1 h p hd]
    exact hf

/-- A block that exists and is not the block of the output is the same after
`unary_op` as before. -/
theorem unary_op_mem_frame {α : Type} (al : Allocator α) (op : α → α) (a b : MatRef)
    (mem : Memory α) (st : Int) (b1 : MatRef) (mem1 : Memory α)
    (h : unary_op_mem al op a b mem = some (st, b1, mem1))
    (p : Nat) (hp : p < mem.length) (hb : b.data ≠ some p) : mem1[p]? = mem[p]? := by
  unfold unary_op_mem at h
  by_cases h3 : a.dims = 3
  · simp only [if_pos h3] at h
    exact created_frame op a _ mem _ st b1 mem1 h p hp
  · by_cases h2 : a.dims = 2
    · simp only [if_neg h3, if_pos h2] at h
      exact created_frame op a _ mem _ st b1 mem1 h p hp
    · by_cases h1 : a.dims = 1
      · simp only [if_neg h3, if_neg h2, if_pos h1] at h
        exact created_frame op a _ mem _ st b1 mem1 h p hp
      · simp only [if_neg h3, if_neg h2, if_neg h1] at h
        exact unary_op_mem_tail_frame op a b mem _ st b1 mem1 h p hb

theorem forward_mem_cases {α : Type} (k : OperationCodes) (m : MathOps α) (al : Allocator α)
    (s : ForwardState α) :
    (∃ op : α → α, UnaryOp.forward_mem k m al s = unary_op_call al op s) ∨
      UnaryOp.forward_mem k m al s = some (0, s) := by
  generalize hr : UnaryOp.forward_mem k m al s = r
  unfold UnaryOp.forward_mem at hr
  by_cases h1 : s.self.op_type = k.Operation_ABS
  · rw [if_pos h1] at hr; exact Or.inl ⟨_, hr.symm⟩
  rw [if_neg h1] at hr
  by_cases h2 : s.self.op_type = k.Operation_NEG
  · rw [if_pos h2] at hr; exact Or.inl ⟨_, hr.symm⟩
  rw [if_neg h2] at hr
  by_cases h3 : s.self.op_type = k.Operation_FLOOR
  · rw [if_pos h3] at hr; exact Or.inl ⟨_, hr.symm⟩
  rw [if_neg h3] at hr
  by_cases h4 : s.self.op_type = k.Operation_CEIL
  · rw [if_pos h4] at hr; exact Or.inl ⟨_, hr.symm⟩
  rw [if_neg h4] at hr
  by_cases h5 : s.self.op_type = k.Operation_SQUARE
  · rw [if_pos h5] at hr; exact Or.inl ⟨_, hr.symm⟩
  rw [if_neg h5] at hr
  by_cases h6 : s.self.op_type = k.Operation_SQRT
  · rw [if_pos h6] at hr; exact Or.inl ⟨_, hr.symm⟩
  rw [if_neg h6] at hr
  by_cases h7 : s.self.op_type = k.Operation_RSQRT
  · rw [if_pos h7] at hr; exact Or.inl ⟨_, hr.symm⟩
  rw [if_neg h7] at hr
  by_cases h8 : s.self.op_type = k.Operation_EXP
  · rw [if_pos h8] at hr; exact Or.inl ⟨_, hr.symm⟩
  rw [if_neg h8] at hr
  by_cases h9 : s.self.op_type = k.Operation_LOG
  · rw [if_pos h9] at hr; exact Or.inl ⟨_, hr.symm⟩
  rw [if_neg h9] at hr
  by_cases h10 : s.self.op_type = k.Operation_SIN
  · rw [if_pos h10] at hr; exact Or.inl ⟨_, hr.symm⟩
  rw [if_neg h10] at hr
  by_cases h11 : s.self.op_type = k.Operation_COS
  · rw [if_pos h11] at hr; exact Or.inl ⟨_, hr.symm⟩
  rw [if_neg h11] at hr
  by_cases h12 : s.self.op_type = k.Operation_TAN
  · rw [if_pos h12] at hr; exact Or.inl ⟨_, hr.symm⟩
  rw [if_neg h12] at hr
  by_cases h13 : s.self.op_type = k.Operation_ASIN
  · rw [if_pos h13] at hr; exact Or.inl ⟨_, hr.symm⟩
  rw [if_neg h13] at hr
  by_cases h14 : s.self.op_type = k.Operation_ACOS
  · rw [if_pos h14] at hr; exact Or.inl ⟨_, hr.symm⟩
  rw [if_neg h14] at hr
  by_cases h15 : s.self.op_type = k.Operation_ATAN
  · rw [if_pos h15] at hr; exact Or.inl ⟨_, hr.symm⟩
  rw [if_neg h15] at hr
  exact Or.inr hr.symm

/-- C19: the allocating path does not modify its input. For every operation
code and every input tensor whose storage exists and is not the storage of
the output, when `UnaryOp::forward` returns, with whatever status, the layer
and with it the stored operation code are as before, the input tensor has
the shape it had, and it reads from memory the elements it read before the
call. -/
theorem forward_keeps_input {α : Type} (k : OperationCodes) (m : MathOps α)
    (al : Allocator α) (s s1 : ForwardState α) (st : Int)
    (hvalid : ∀ p : Nat, s.bottom_blob.data = some p → p < s.mem.length)
    (hdistinct : ∀ p : Nat, s.bottom_blob.data = some p → s.top_blob.data ≠ some p)
    (hret : UnaryOp.forward_mem k m al s = some (st, s1)) :
    s1.self = s.self ∧ s1.self.op_type = s.self.op_type ∧
      s1.bottom_blob = s.bottom_blob ∧
      s1.bottom_blob.read s1.mem = s.bottom_blob.read s.mem := by
  rcases forward_mem_cases k m al s with ⟨op, h⟩ | h
  · rw [h] at hret
    unfold unary_op_call at hret
    cases hu : unary_op_mem al op s.bottom_blob s.top_blob s.mem with
    | none => simp [hu] at hret
    | some r =>
      obtain ⟨st2, b1, mem1⟩ := r
      simp only [hu, Option.some.injEq, Prod.mk.injEq] at hret
      obtain ⟨_, hs⟩ := hret
      subst hs
      refine ⟨rfl, rfl, rfl, ?_⟩
      show s.bottom_blob.read mem1 = s.bottom_blob.read s.mem
      unfold MatRef.read
      cases hp : s.bottom_blob.data with
      | none => rfl
      | some p =>
        simp only []
        rw [unary_op_mem_frame al op s.bottom_blob s.top_blob s.mem st2 b1 mem1 hu p
          (hvalid p hp) (hdistinct p hp)]
  · rw [h] at hret
    simp only [Option.some.injEq, Prod.mk.injEq] at hret
    rw [← hret.2]
    exact ⟨rfl, rfl, rfl, rfl⟩

/-- Witness for C19: `neg` on `[4, 9]` with a default-constructed output: the
output gets a new block and the block of the input is as before. With an
input of rank 4 whose output shares the block of the input, which the
hypothesis excludes, the elements of the input are overwritten. -/
theorem forward_keeps_input_witness :
    MatRef.read { dims := 1, w := 2, h := 1, c := 1, data := some 0 }
        [[4, 9], [-4, -9]] =
      MatRef.read { dims := 1, w := 2, h := 1, c := 1, data := some 0 } [[(4 : Int), 9]] ∧
    UnaryOp.forward_mem tableCodes intOps (fillAllocator 0)
        { self := { one_blob_only := true, support_inplace := true, op_type := 1 },
          bottom_blob := { dims := 4, w := 2, h := 1, c := 1, data := some 0 },
          top_blob := { dims := 1, w := 2, h := 1, c := 1, data := some 0 },
          mem := [[4, 9]] } =
      some (0,
        { self := { one_blob_only := true, support_inplace := true, op_type := 1 },
          bottom_blob := { dims := 4, w := 2, h := 1, c := 1, data := some 0 },
          top_blob := { dims := 1, w := 2, h := 1, c := 1, data := some 0 },
          mem := [[-4, -9]] }) :=
  ⟨(forward_keeps_input tableCodes intOps (fillAllocator 0)
      { self := { one_blob_only := true, support_inplace := true, op_type := 1 },
        bottom_blob := { dims := 1, w := 2, h := 1, c := 1, data := some 0 },
        top_blob := { dims := 0, w := 0, h := 0, c := 0, data := none },
        mem := [[4, 9]] }
      { self := { one_blob_only := true, support_inplace := true, op_type := 1 },
        bottom_blob := { dims := 1, w := 2, h := 1, c := 1, data := some 0 },
        top_blob := { dims := 1, w := 2, h := 1, c := 1, data := some 1 },
        mem := [[4, 9], [-4, -9]] } 0
      (by intro p hp; cases hp; decide) (by intro p hp; cases hp; decide) (by decide)).2.2.2,
    by decide⟩

/-! ## The memory model and the value model agree -/

theorem run_loop_none {α : Type} (step : List α → Nat → Option (List α))
    (hstep : ∀ (l : List α) (i : Nat), step l i = none) (order : List Nat) (l : List α) :
    run_loop step order l = if order = [] then some l else none := by
  cases order with
  | nil => rfl
  | cons i rest => rw [run_loop_cons, hstep]; rfl

theorem set_eq_self {α : Type} (mem : List α) (p : Nat) (x : α) (h : mem[p]? = some x) :
    mem.set p x = mem := by
  apply List.ext_getElem?
  intro i
  rw [List.getElem?_set]
  by_cases hi : p = i
  · subst hi
    have hlt : p < mem.length := by
      by_contra hc
      rw [List.getElem?_eq_none (by omega)] at h
      exact absurd h (by simp)
    simp [hlt, h]
  · simp [hi]

/-- The loop on memory with valid, different blocks for input and output is
the loop on the elements of the two blocks. -/
theorem run_loop_mem_distinct {α : Type} (op : α → α) (pa pb : Nat) (hne : pa ≠ pb) :
    ∀ (order : List Nat) (mem : Memory α) (src dst : List α),
      mem[pa]? = some src → mem[pb]? = some dst →
      run_loop (unary_op_mem_step op (some pa) (some pb)) order mem =
        (run_loop (unary_op_step op src) order dst).map (fun out => mem.set pb out) := by
  intro order
  induction order with
  | nil =>
    intro mem src dst _ hb
    simp only [run_loop, Option.map_some']
    rw [set_eq_self mem pb dst hb]
  | cons i rest ih =>
    intro mem src dst ha hb
    rw [run_loop_cons, run_loop_cons]
    have hlt : pb < mem.length := by
      by_contra hc
      rw [List.getElem?_eq_none (by omega)] at hb
      exact absurd hb (by simp)
    cases hs : unary_op_step op src dst i with
    | none =>
      have : unary_op_mem_step op (some pa) (some pb) mem i = none := by
        simp [unary_op_mem_step, ha, hb, hs]
      rw [this]
      rfl
    | some out =>
      have : unary_op_mem_step op (some pa) (some pb) mem i = some (mem.set pb out) := by
        simp [unary_op_mem_step, ha, hb, hs]
      rw [this]
      simp only [Option.some_bind]
      rw [ih (mem.set pb out) src out
        (by rw [List.getElem?_set_ne hne.symm]; exact ha)
        (List.getElem?_set_self hlt)]
      congr 1
      funext o
      exact List.set_set _ _ _ _

theorem read_some_valid {α : Type} {r : MatRef} {mem : Memory α} {t : Mat α} {p : Nat}
    (h : r.read mem = some t) (hp : r.data = some p) :
    mem[p]? = some t.data ∧ p < mem.length ∧
      t = { dims := r.dims, w := r.w, h := r.h, c := r.c, data := t.data } := by
  unfold MatRef.read at h
  rw [hp] at h
  cases hm : mem[p]? with
  | none => simp [hm] at h
  | some d =>
    simp only [hm, Option.some.injEq] at h
    subst h
    refine ⟨rfl, ?_, rfl⟩
    by_contra hc
    rw [List.getElem?_eq_none (by omega)] at hm
    exact absurd hm (by simp)

theorem read_null {α : Type} {r : MatRef} {mem : Memory α} {t : Mat α}
    (h : r.read mem = some t) (hp : r.data = none) :
    t = { dims := r.dims, w := r.w, h := r.h, c := r.c, data := [] } := by
  unfold MatRef.read at h
  rw [hp] at h
  simp only [Option.some.injEq] at h
  exact h.symm

/-- The loop of `unary_op` on memory agrees with the loop on values when the
output does not share the block of the input: both are undefined, or both
return and the output reads from the new memory the elements the value
model computes. -/
theorem run_loop_mem_agrees {α : Type} (op : α → α) (a b : MatRef) (mem : Memory α)
    (a1 b1 : Mat α) (order : List Nat)
    (ha : a.read mem = some a1) (hb : b.read mem = some b1)
    (hdistinct : ∀ p : Nat, a.data = some p → b.data ≠ some p) :
    (run_loop (unary_op_step op a1.data) order b1.data = none →
        run_loop (unary_op_mem_step op a.data b.data) order mem = none) ∧
      (∀ out, run_loop (unary_op_step op a1.data) order b1.data = some out →
        ∃ mem1, run_loop (unary_op_mem_step op a.data b.data) order mem = some mem1 ∧
          b.read mem1 = some { b1 with data := out }) := by
  cases order with
  | nil =>
    refine ⟨fun h => absurd h (by simp [run_loop]), fun out h => ⟨mem, rfl, ?_⟩⟩
    simp only [run_loop, Option.some.injEq] at h
    rw [← h]
    exact hb
  | cons i rest =>
    cases hpa : a.data with
    | none =>
      have hsrc : a1.data = [] := by rw [read_null ha hpa]
      have h1 : run_loop (unary_op_step op a1.data) (i :: rest) b1.data = none := by
        rw [run_loop_cons]
        simp [unary_op_step, hsrc]
      have h2 : run_loop (unary_op_mem_step op none b.data) (i :: rest) mem = none := by
        rw [run_loop_cons]
        simp [unary_op_mem_step]
      exact ⟨fun _ => h2, fun out h => absurd (h1.symm.trans h) (by simp)⟩
    | some pa =>
      obtain ⟨hma, _, _⟩ := read_some_valid ha hpa
      cases hpb : b.data with
      | none =>
        have hdst : b1.data = [] := by rw [read_null hb hpb]
        have h1 : run_loop (unary_op_step op a1.data) (i :: rest) b1.data = none := by
          rw [run_loop_cons, hdst]
          unfold unary_op_step
          cases a1.data[i]? <;> simp
        have h2 : run_loop (unary_op_mem_step op (some pa) none) (i :: rest) mem = none := by
          rw [run_loop_cons]
          simp [unary_op_mem_step]
        exact ⟨fun _ => h2, fun out h => absurd (h1.symm.trans h) (by simp)⟩
      | some pb =>
        obtain ⟨hmb, hlt, hshape⟩ := read_some_valid hb hpb
        have hne : pa ≠ pb := fun e => hdistinct pa hpa (by rw [hpb, e])
        rw [run_loop_mem_distinct op pa pb hne (i :: rest) mem a1.data b1.data hma hmb]
        constructor
        · intro h
          rw [h]
          rfl
        · intro out h
          rw [h]
          refine ⟨mem.set pb out, rfl, ?_⟩
          unfold MatRef.read
          rw [hpb]
          simp only [List.getElem?_set_self hlt]
          rw [hshape]

theorem unary_op_mem_tail_agrees {α : Type} (op : α → α) (a b : MatRef) (mem : Memory α)
    (a1 b1 : Mat α) (size : Int)
    (ha : a.read mem = some a1) (hb : b.read mem = some b1)
    (hdistinct : ∀ p : Nat, a.data = some p → b.data ≠ some p) :
    (unary_op_tail op a1 b1 size = none → unary_op_mem_tail op a b mem size = none) ∧
      (∀ st out, unary_op_tail op a1 b1 size = some (st, out) →
        ∃ b2 mem1, unary_op_mem_tail op a b mem size = some (st, b2, mem1) ∧
          b2.read mem1 = some out) := by
  obtain ⟨h1, h2⟩ := run_loop_mem_agrees op a b mem a1 b1 (loop_indices size) ha hb hdistinct
  unfold unary_op_tail unary_op_mem_tail
  cases hr : run_loop (unary_op_step op a1.data) (loop_indices size) b1.data with
  | none =>
    rw [h1 hr]
    exact ⟨fun _ => rfl, fun st out h => absurd h (by simp)⟩
  | some r =>
    obtain ⟨mem1, hm, hread⟩ := h2 r hr
    rw [hm]
    refine ⟨fun h => absurd h (by simp), fun st out h => ⟨b, mem1, ?_, ?_⟩⟩
    · simp only [Option.some.injEq, Prod.mk.injEq] at h
      rw [← h.1]
    · simp only [Option.some.injEq, Prod.mk.injEq] at h
      rw [← h.2]
      exact hread

theorem read_place {α : Type} (t : Mat α) (mem : Memory α) :
    (MatRef.place t mem).1.read (MatRef.place t mem).2 = some t ∧
      ((MatRef.place t mem).1.data.isNone = t.empty) := by
  unfold MatRef.place
  cases he : t.empty with
  | true =>
    have hd : t.data = [] := by
      unfold Mat.empty at he
      exact List.isEmpty_iff.mp he
    refine ⟨?_, rfl⟩
    simp only [if_true, MatRef.read]
    rw [← hd]
  | false =>
    refine ⟨?_, rfl⟩
    simp only [Bool.false_eq_true, if_false, MatRef.read]
    rw [List.getElem?_append_right (Nat.le_refl _)]
    simp

theorem read_after_place {α : Type} (a : MatRef) (a1 t : Mat α) (mem : Memory α)
    (ha : a.read mem = some a1) :
    a.read (MatRef.place t mem).2 = some a1 ∧
      ∀ p : Nat, a.data = some p → (MatRef.place t mem).1.data ≠ some p := by
  cases hpa : a.data with
  | none =>
    refine ⟨?_, fun p hp => absurd hp (by simp)⟩
    unfold MatRef.read at ha ⊢
    rw [hpa] at ha ⊢
    exact ha
  | some pa =>
    obtain ⟨_, hlt, _⟩ := read_some_valid ha hpa
    obtain ⟨hf, hd⟩ := place_frame t mem pa hlt
    refine ⟨?_, fun p hp => by
      simp only [Option.some.injEq] at hp
      rw [← hp]
      exact hd⟩
    unfold MatRef.read at ha ⊢
    rw [hpa] at ha ⊢
    simp only [] at ha ⊢
    rw [hf]
    exact ha

theorem created_agrees {α : Type} (op : α → α) (a : MatRef) (a1 t : Mat α) (mem : Memory α)
    (size : Int) (ha : a.read mem = some a1) :
    ((if t.empty then some (-100, t) else unary_op_tail op a1 t size) = none →
        (if (MatRef.place t mem).1.data.isNone then
          some (-100, (MatRef.place t mem).1, (MatRef.place t mem).2)
        else unary_op_mem_tail op a (MatRef.place t mem).1 (MatRef.place t mem).2 size) =
          none) ∧
      (∀ st out, (if t.empty then some (-100, t) else unary_op_tail op a1 t size) =
          some (st, out) →
        ∃ b2 mem1, (if (MatRef.place t mem).1.data.isNone then
            some (-100, (MatRef.place t mem).1, (MatRef.place t mem).2)
          else unary_op_mem_tail op a (MatRef.place t mem).1 (MatRef.place t mem).2 size) =
            some (st, b2, mem1) ∧
          b2.read mem1 = some out) := by
  obtain ⟨hread, hnone⟩ := read_place t mem
  obtain ⟨ha2, hd2⟩ := read_after_place a a1 t mem ha
  rw [hnone]
  cases he : t.empty with
  | true =>
    simp only [if_true]
    refine ⟨fun h => absurd h (by simp), fun st out h =>
      ⟨(MatRef.place t mem).1, (MatRef.place t mem).2, ?_, ?_⟩⟩
    · simp only [Option.some.injEq, Prod.mk.injEq] at h
      rw [← h.1]
    · simp only [Option.some.injEq, Prod.mk.injEq] at h
      rw [← h.2]
      exact hread
  | false =>
    simp only [Bool.false_eq_true, if_false]
    exact unary_op_mem_tail_agrees op a _ _ a1 t size ha2 hread hd2

theorem read_shape {α : Type} {r : MatRef} {mem : Memory α} {t : Mat α}
    (h : r.read mem = some t) :
    t.dims = r.dims ∧ t.w = r.w ∧ t.h = r.h ∧ t.c = r.c := by
  cases hp : r.data with
  | none => rw [read_null h hp]; exact ⟨rfl, rfl, rfl, rfl⟩
  | some p =>
    obtain ⟨_, _, hs⟩ := read_some_valid h hp
    rw [hs]
    exact ⟨rfl, rfl, rfl, rfl⟩

/-- `unary_op` on memory agrees with `unary_op` on values when the output does
not share the block of the input. -/
theorem unary_op_mem_agrees {α : Type} (al : Allocator α) (op : α → α) (a b : MatRef)
    (mem : Memory α) (a1 b1 : Mat α)
    (ha : a.read mem = some a1) (hb : b.read mem = some b1)
    (hdistinct : ∀ p : Nat, a.data = some p → b.data ≠ some p) :
    (unary_op al op a1 b1 = none → unary_op_mem al op a b mem = none) ∧
      (∀ st out, unary_op al op a1 b1 = some (st, out) →
        ∃ b2 mem1, unary_op_mem al op a b mem = some (st, b2, mem1) ∧
          b2.read mem1 = some out) := by
  obtain ⟨hd, hw, hh, hc⟩ := read_shape ha
  unfold unary_op unary_op_mem
  simp only [hd, hw, hh, hc]
  by_cases h3 : a.dims = 3
  · simp only [if_pos h3]
    exact created_agrees op a a1 _ mem _ ha
  · by_cases h2 : a.dims = 2
    · simp only [if_neg h3, if_pos h2]
      exact created_agrees op a a1 _ mem _ ha
    · by_cases h1 : a.dims = 1
      · simp only [if_neg h3, if_neg h2, if_pos h1]
        exact created_agrees op a a1 _ mem _ ha
      · simp only [if_neg h3, if_neg h2, if_neg h1]
        exact unary_op_mem_tail_agrees op a b mem a1 b1 _ ha hb hdistinct

theorem unary_op_call_agrees {α : Type} (al : Allocator α) (op : α → α)
    (s : ForwardState α) (a1 b1 : Mat α)
    (ha : s.bottom_blob.read s.mem = some a1) (hb : s.top_blob.read s.mem = some b1)
    (hdistinct : ∀ p : Nat, s.bottom_blob.data = some p → s.top_blob.data ≠ some p) :
    (unary_op al op a1 b1 = none → unary_op_call al op s = none) ∧
      (∀ st out, unary_op al op a1 b1 = some (st, out) →
        ∃ s1, unary_op_call al op s = some (st, s1) ∧ s1.self = s.self ∧
          s1.bottom_blob = s.bottom_blob ∧ s1.top_blob.read s1.mem = some out) := by
  obtain ⟨h1, h2⟩ := unary_op_mem_agrees al op s.bottom_blob s.top_blob s.mem a1 b1 ha hb
    hdistinct
  unfold unary_op_call
  constructor
  · intro h
    rw [h1 h]
  · intro st out h
    obtain ⟨b2, mem1, hm, hr⟩ := h2 st out h
    rw [hm]
    exact ⟨_, rfl, rfl, rfl, hr⟩

/-- `UnaryOp::forward` on memory agrees with `UnaryOp::forward` on values
when the output does not share the block of the input: both are undefined,
or both return the same status and the output reads from the new memory
the tensor the value model returns. -/
theorem forward_mem_agrees {α : Type} (k : OperationCodes) (m : MathOps α) (al : Allocator α)
    (s : ForwardState α) (a1 b1 : Mat α)
    (ha : s.bottom_blob.read s.mem = some a1) (hb : s.top_blob.read s.mem = some b1)
    (hdistinct : ∀ p : Nat, s.bottom_blob.data = some p → s.top_blob.data ≠ some p) :
    (UnaryOp.forward k m al s.self a1 b1 = none → UnaryOp.forward_mem k m al s = none) ∧
      (∀ st out, UnaryOp.forward k m al s.self a1 b1 = some (st, out) →
        ∃ s1, UnaryOp.forward_mem k m al s = some (st, s1) ∧ s1.self = s.self ∧
          s1.bottom_blob = s.bottom_blob ∧ s1.top_blob.read s1.mem = some out) := by
  generalize hR : UnaryOp.forward k m al s.self a1 b1 = R
  generalize hM : UnaryOp.forward_mem k m al s = M
  unfold UnaryOp.forward at hR
  unfold UnaryOp.forward_mem at hM
  by_cases h1 : s.self.op_type = k.Operation_ABS
  · rw [if_pos h1] at hR hM
    rw [← hR, ← hM]
    exact unary_op_call_agrees al _ s a1 b1 ha hb hdistinct
  rw [if_neg h1] at hR hM
  by_cases h2 : s.self.op_type = k.Operation_NEG
  · rw [if_pos h2] at hR hM
    rw [← hR, ← hM]
    exact unary_op_call_agrees al _ s a1 b1 ha hb hdistinct
  rw [if_neg h2] at hR hM
  by_cases h3 : s.self.op_type = k.Operation_FLOOR
  · rw [if_pos h3] at hR hM
    rw [← hR, ← hM]
    exact unary_op_call_agrees al _ s a1 b1 ha hb hdistinct
  rw [if_neg h3] at hR hM
  by_cases h4 : s.self.op_type = k.Operation_CEIL
  · rw [if_pos h4] at hR hM
    rw [← hR, ← hM]
    exact unary_op_call_agrees al _ s a1 b1 ha hb hdistinct
  rw [if_neg h4] at hR hM
  by_cases h5 : s.self.op_type = k.Operation_SQUARE
  · rw [if_pos h5] at hR hM
    rw [← hR, ← hM]
    exact unary_op_call_agrees al _ s a1 b1 ha hb hdistinct
  rw [if_neg h5] at hR hM
  by_cases h6 : s.self.op_type = k.Operation_SQRT
  · rw [if_pos h6] at hR hM
    rw [← hR, ← hM]
    exact unary_op_call_agrees al _ s a1 b1 ha hb hdistinct
  rw [if_neg h6] at hR hM
  by_cases h7 : s.self.op_type = k.Operation_RSQRT
  · rw [if_pos h7] at hR hM
    rw [← hR, ← hM]
    exact unary_op_call_agrees al _ s a1 b1 ha hb hdistinct
  rw [if_neg h7] at hR hM
  by_cases h8 : s.self.op_type = k.Operation_EXP
  · rw [if_pos h8] at hR hM
    rw [← hR, ← hM]
    exact unary_op_call_agrees al _ s a1 b1 ha hb hdistinct
  rw [if_neg h8] at hR hM
  by_cases h9 : s.self.op_type = k.Operation_LOG
  · rw [if_pos h9] at hR hM
    rw [← hR, ← hM]
    exact unary_op_call_agrees al _ s a1 b1 ha hb hdistinct
  rw [if_neg h9] at hR hM
  by_cases h10 : s.self.op_type = k.Operation_SIN
  · rw [if_pos h10] at hR hM
    rw [← hR, ← hM]
    exact unary_op_call_agrees al _ s a1 b1 ha hb hdistinct
  rw [if_neg h10] at hR hM
  by_cases h11 : s.self.op_type = k.Operation_COS
  · rw [if_pos h11] at hR hM
    rw [← hR, ← hM]
    exact unary_op_call_agrees al _ s a1 b1 ha hb hdistinct
  rw [if_neg h11] at hR hM
  by_cases h12 : s.self.op_type = k.Operation_TAN
  · rw [if_pos h12] at hR hM
    rw [← hR, ← hM]
    exact unary_op_call_agrees al _ s a1 b1 ha hb hdistinct
  rw [if_neg h12] at hR hM
  by_cases h13 : s.self.op_type = k.Operation_ASIN
  · rw [if_pos h13] at hR hM
    rw [← hR, ← hM]
    exact unary_op_call_agrees al _ s a1 b1 ha hb hdistinct
  rw [if_neg h13] at hR hM
  by_cases h14 : s.self.op_type = k.Operation_ACOS
  · rw [if_pos h14] at hR hM
    rw [← hR, ← hM]
    exact unary_op_call_agrees al _ s a1 b1 ha hb hdistinct
  rw [if_neg h14] at hR hM
  by_cases h15 : s.self.op_type = k.Operation_ATAN
  · rw [if_pos h15] at hR hM
    rw [← hR, ← hM]
    exact unary_op_call_agrees al _ s a1 b1 ha hb hdistinct
  rw [if_neg h15] at hR hM
  rw [← hR, ← hM]
  refine ⟨fun h => absurd h (by simp), fun st out h => ⟨s, ?_, rfl, rfl, ?_⟩⟩
  · simp only [Option.some.injEq, Prod.mk.injEq] at h
    rw [← h.1]
  · simp only [Option.some.injEq, Prod.mk.injEq] at h
    rw [← h.2]
    exact hb

/-! ## Single precision: facts -/

theorem bit_length_aux_spec : ∀ fuel n : Nat, n ≤ fuel →
    n < 2 ^ bit_length_aux fuel n ∧ (n ≠ 0 → 2 ^ (bit_length_aux fuel n - 1) ≤ n) := by
  intro fuel
  induction fuel with
  | zero =>
    intro n hn
    have : n = 0 := by omega
    subst this
    simp [bit_length_aux]
  | succ f ih =>
    intro n hn
    by_cases h0 : n = 0
    · subst h0
      simp [bit_length_aux]
    · have hrec : bit_length_aux (f + 1) n = 1 + bit_length_aux f (n / 2) := by
        rw [bit_length_aux, if_neg h0]
      obtain ⟨h1, h2⟩ := ih (n / 2) (by omega)
      rw [hrec]
      constructor
      · rw [Nat.pow_add, Nat.pow_one]
        omega
      · intro _
        rw [Nat.add_sub_cancel_left]
        by_cases h3 : n / 2 = 0
        · have : bit_length_aux f (n / 2) = 0 := by
            rw [h3]
            cases f <;> simp [bit_length_aux]
          rw [this]
          simp
          omega
        · have h4 := h2 h3
          obtain ⟨j, hj⟩ : ∃ j, bit_length_aux f (n / 2) = j + 1 := by
            rcases hb : bit_length_aux f (n / 2) with _ | j
            · rw [hb] at h1
              simp at h1
              omega
            · exact ⟨j, rfl⟩
          rw [hj] at h4 ⊢
          rw [Nat.add_sub_cancel] at h4
          rw [Nat.pow_succ]
          omega

/-- A number between `2^b` and `2^(b+1)` has `b + 1` binary digits. -/
theorem bit_length_eq (n b : Nat) (h1 : 2 ^ b ≤ n) (h2 : n < 2 ^ (b + 1)) :
    bit_length n = b + 1 := by
  have hn0 : n ≠ 0 := by
    have : 0 < 2 ^ b := Nat.pow_pos (by decide)
    omega
  obtain ⟨h3, h4⟩ := bit_length_aux_spec n n (Nat.le_refl n)
  have h4 := h4 hn0
  unfold bit_length
  generalize bit_length_aux n n = L at h3 h4
  have ha : b < L := (Nat.pow_lt_pow_iff_right (by decide : 1 < 2)).mp (lt_of_le_of_lt h1 h3)
  have hb : L - 1 < b + 1 :=
    (Nat.pow_lt_pow_iff_right (by decide : 1 < 2)).mp (lt_of_le_of_lt h4 h2)
  omega

theorem integer_sqrt_aux_spec : ∀ fuel n : Nat, n ≤ fuel →
    integer_sqrt_aux fuel n * integer_sqrt_aux fuel n ≤ n ∧
      n < (integer_sqrt_aux fuel n + 1) * (integer_sqrt_aux fuel n + 1) := by
  intro fuel
  induction fuel with
  | zero =>
    intro n hn
    have : n = 0 := by omega
    subst this
    simp [integer_sqrt_aux]
  | succ f ih =>
    intro n hn
    by_cases h0 : n = 0
    · subst h0
      simp [integer_sqrt_aux]
    · obtain ⟨h1, h2⟩ := ih (n / 4) (by omega)
      rw [integer_sqrt_aux, if_neg h0]
      generalize integer_sqrt_aux f (n / 4) = r at h1 h2
      have e1 : (r + 1) * (r + 1) = r * r + 2 * r + 1 := by ring
      have e2 : (2 * r + 1) * (2 * r + 1) = 4 * (r * r) + 4 * r + 1 := by ring
      have e3 : (2 * r + 1 + 1) * (2 * r + 1 + 1) = 4 * (r * r) + 8 * r + 4 := by ring
      have e4 : 2 * r * (2 * r) = 4 * (r * r) := by ring
      by_cases h : (2 * r + 1) * (2 * r + 1) ≤ n
      · rw [if_pos h]
        exact ⟨h, by omega⟩
      · rw [if_neg h]
        exact ⟨by omega, by omega⟩

/-- The digit-by-digit root is the integer square root. -/
theorem integer_sqrt_eq (n : Nat) : integer_sqrt n = Nat.sqrt n :=
  Nat.eq_sqrt.mpr (integer_sqrt_aux_spec n n (Nat.le_refl n))

/-- The rounding of a value of `L > 24` binary digits in the normal range:
the significand is `n / 2^(L-24)` rounded, added to the exponent field
`K`. -/
theorem round_normal (s : Bool) (n : Nat) (e : Int) (L K : Nat)
    (hL : bit_length n = L) (hn : n ≠ 0) (h24 : 24 < L)
    (hK : (L : Int) - 1 + e + 126 = (K : Int))
    (hmag : K * 8388608 + round_shift n (L - 24) < 2139095040) :
    Binary32.round s n e = Binary32.ofMagnitude s (K * 8388608 + round_shift n (L - 24)) := by
  unfold Binary32.round
  rw [if_neg hn, hL]
  have h1 : ¬ ((L : Int) - 1 + e < -126) := by omega
  simp only [h1, if_false]
  have h2 : ¬ ((L : Int) - 1 + e - 23 - e ≤ 0) := by omega
  have h3 : ((L : Int) - 1 + e - 23 - e).toNat = L - 24 := by omega
  have h4 : ((L : Int) - 1 + e + 126).toNat = K := by omega
  simp only [h2, h3, h4, if_false]
  rw [if_neg (by omega)]

theorem round_shift_23 (n : Nat) :
    n ≤ round_shift n 23 * 8388608 + 4194304 ∧ round_shift n 23 * 8388608 ≤ n + 4194304 := by
  unfold round_shift
  have : (2 : Nat) ^ 23 = 8388608 := by norm_num
  rw [this]
  split_ifs <;> omega

theorem round_shift_24 (n : Nat) :
    n ≤ round_shift n 24 * 16777216 + 8388608 ∧
      round_shift n 24 * 16777216 ≤ n + 8388608 := by
  unfold round_shift
  have : (2 : Nat) ^ 24 = 16777216 := by norm_num
  rw [this]
  split_ifs <;> omega

theorem round_shift_2 (m n : Nat) (h1 : 4 * m ≤ n + 1) (h2 : n ≤ 4 * m + 1) :
    round_shift n 2 = m := by
  unfold round_shift
  have : (2 : Nat) ^ 2 = 4 := by norm_num
  rw [this]
  split_ifs <;> omega

/-- The square root of a positive normal value, the scaling `k` given. -/
theorem sqrt_normal (y : Binary32) (k : Nat) (hs : y.sign = false)
    (he1 : 1 ≤ y.exponent.val) (he2 : y.exponent.val ≤ 254)
    (hk : (y.exponent.val % 2 = 1 ∧ k = 25) ∨ (y.exponent.val % 2 = 0 ∧ k = 26)) :
    Binary32.sqrt y =
      Binary32.round false
        (2 * Nat.sqrt ((8388608 + y.mantissa.val) * 2 ^ k) +
          if Nat.sqrt ((8388608 + y.mantissa.val) * 2 ^ k) *
              Nat.sqrt ((8388608 + y.mantissa.val) * 2 ^ k) =
            (8388608 + y.mantissa.val) * 2 ^ k then 0 else 1)
        (((y.exponent.val : Int) - 150 - (k : Int)) / 2 - 1) := by
  have hm : y.mantissa.val < 8388608 := y.mantissa.isLt
  have hbl : bit_length (8388608 + y.mantissa.val) = 24 := by
    apply bit_length_eq _ 23
    · have : (2 : Nat) ^ 23 = 8388608 := by norm_num
      omega
    · have : (2 : Nat) ^ (23 + 1) = 16777216 := by norm_num
      omega
  have hnan : y.isNaN = false := by
    unfold Binary32.isNaN
    have : ¬ (y.exponent.val = 255) := by omega
    simp [this]
  have hzero : y.isZero = false := by
    unfold Binary32.isZero
    have : ¬ (y.exponent.val = 0) := by omega
    simp [this]
  have hinf : y.isInf = false := by
    unfold Binary32.isInf
    have : ¬ (y.exponent.val = 255) := by omega
    simp [this]
  have hsig : y.significand = 8388608 + y.mantissa.val := by
    unfold Binary32.significand
    rw [if_neg (by omega)]
  have hsc : y.scale = (y.exponent.val : Int) - 150 := by
    unfold Binary32.scale
    rw [if_neg (by omega)]
  unfold Binary32.sqrt
  simp only [integer_sqrt_eq]
  rw [hnan, hzero, hs, hinf, hsig, hsc, hbl]
  have hk2 : (if ((y.exponent.val : Int) - 150 - ((49 - 24 : Nat) : Int)) % 2 = 0 then 49 - 24
      else 1 + (49 - 24)) = k := by
    rcases hk with ⟨h, rfl⟩ | ⟨h, rfl⟩
    · rw [if_pos (by omega)]
    · rw [if_neg (by omega)]
  simp only [Bool.false_eq_true, if_false, hk2]

/-- The integer root of a number strictly between `(2m-1)^2` and
`(2m+1)^2`, with the bit that records inexactness appended, lies within
one of `4m`. -/
theorem sqrt_near (m n : Nat) (hlo : (2 * m - 1) * (2 * m - 1) < n)
    (hhi : n < (2 * m + 1) * (2 * m + 1)) :
    4 * m ≤ (2 * Nat.sqrt n + if Nat.sqrt n * Nat.sqrt n = n then 0 else 1) + 1 ∧
      (2 * Nat.sqrt n + if Nat.sqrt n * Nat.sqrt n = n then 0 else 1) ≤ 4 * m + 1 := by
  have h1 : 2 * m - 1 ≤ Nat.sqrt n := Nat.le_sqrt.mpr (le_of_lt hlo)
  have h2 : Nat.sqrt n < 2 * m + 1 := Nat.sqrt_lt.mpr hhi
  by_cases h : Nat.sqrt n * Nat.sqrt n = n
  · rw [if_pos h]
    have h3 : Nat.sqrt n ≠ 2 * m - 1 := by
      intro h4
      rw [h4] at h
      omega
    omega
  · rw [if_neg h]
    omega

/-- The last rounding of the square root: a root within one of `4m`, in
quarter units, rounds to the significand `m` in the binade of exponent
field `b`. -/
theorem round_root (m n b : Nat) (hm1 : 8388608 ≤ m) (hm2 : m < 16777216)
    (hb1 : 1 ≤ b) (hb2 : b ≤ 254) (hn : 281474976710656 ≤ n)
    (hlo : (2 * m - 1) * (2 * m - 1) < n) (hhi : n < (2 * m + 1) * (2 * m + 1)) :
    Binary32.round false
        (2 * Nat.sqrt n + if Nat.sqrt n * Nat.sqrt n = n then 0 else 1) ((b : Int) - 152) =
      Binary32.ofMagnitude false ((b - 1) * 8388608 + m) := by
  obtain ⟨h1, h2⟩ := sqrt_near m n hlo hhi
  have h3 : 16777216 ≤ Nat.sqrt n := Nat.le_sqrt.mpr (by norm_num; exact hn)
  have h4 : 33554432 ≤ 2 * Nat.sqrt n + if Nat.sqrt n * Nat.sqrt n = n then 0 else 1 := by
    omega
  generalize (2 * Nat.sqrt n + if Nat.sqrt n * Nat.sqrt n = n then 0 else 1) = q at h1 h2 h4
  have hL : bit_length q = 26 := by
    apply bit_length_eq _ 25
    · have : (2 : Nat) ^ 25 = 33554432 := by norm_num
      omega
    · have : (2 : Nat) ^ (25 + 1) = 67108864 := by norm_num
      omega
  have hr : round_shift q (26 - 24) = m := round_shift_2 m q h1 h2
  have := round_normal false q ((b : Int) - 152) 26 (b - 1) hL (by omega) (by decide)
    (by omega) (by rw [hr]; omega)
  rw [this, hr]

/-- The square root of a rounded square whose exponent field, before the
significand is added, is even: the square had forty-seven bits. -/
theorem sqrt_rounded_square_low (m b M : Nat) (hm1 : 8388608 ≤ m) (hm2 : m < 16777216)
    (hb1 : 64 ≤ b) (hb2 : b ≤ 190) (hM1 : 8388608 ≤ M) (hM2 : M ≤ 16777216)
    (hlo : (2 * m - 1) * (2 * m - 1) < M * 33554432)
    (hhi : M * 33554432 < (2 * m + 1) * (2 * m + 1)) :
    Binary32.sqrt (Binary32.ofMagnitude false ((2 * b - 128) * 8388608 + M)) =
      Binary32.ofMagnitude false ((b - 1) * 8388608 + m) := by
  have hroot := round_root m (M * 33554432) b hm1 hm2 (by omega) (by omega) (by omega) hlo hhi
  by_cases hM : M = 16777216
  · have hey : (Binary32.ofMagnitude false ((2 * b - 128) * 8388608 + M)).exponent.val =
        2 * b - 126 := by
      show ((2 * b - 128) * 8388608 + M) / 8388608 % 256 = 2 * b - 126
      omega
    have hmy : (Binary32.ofMagnitude false ((2 * b - 128) * 8388608 + M)).mantissa.val = 0 := by
      show ((2 * b - 128) * 8388608 + M) % 8388608 = 0
      omega
    rw [sqrt_normal _ 26 rfl (by rw [hey]; omega) (by rw [hey]; omega)
      (Or.inr ⟨by rw [hey]; omega, rfl⟩), hey, hmy]
    have hn : (8388608 + 0) * 2 ^ 26 = M * 33554432 := by
      rw [hM]
      norm_num
    have he : (((2 * b - 126 : Nat) : Int) - 150 - ((26 : Nat) : Int)) / 2 - 1 =
        (b : Int) - 152 := by omega
    rw [hn, he]
    exact hroot
  · have hey : (Binary32.ofMagnitude false ((2 * b - 128) * 8388608 + M)).exponent.val =
        2 * b - 127 := by
      show ((2 * b - 128) * 8388608 + M) / 8388608 % 256 = 2 * b - 127
      omega
    have hmy : (Binary32.ofMagnitude false ((2 * b - 128) * 8388608 + M)).mantissa.val =
        M - 8388608 := by
      show ((2 * b - 128) * 8388608 + M) % 8388608 = M - 8388608
      omega
    rw [sqrt_normal _ 25 rfl (by rw [hey]; omega) (by rw [hey]; omega)
      (Or.inl ⟨by rw [hey]; omega, rfl⟩), hey, hmy]
    have hn : (8388608 + (M - 8388608)) * 2 ^ 25 = M * 33554432 := by
      have h1 : 8388608 + (M - 8388608) = M := by omega
      rw [h1]
      norm_num
    have he : (((2 * b - 127 : Nat) : Int) - 150 - ((25 : Nat) : Int)) / 2 - 1 =
        (b : Int) - 152 := by omega
    rw [hn, he]
    exact hroot

/-- The square root of a rounded square whose exponent field, before the
significand is added, is odd: the square had forty-eight bits. -/
theorem sqrt_rounded_square_high (m b M : Nat) (hm1 : 8388608 ≤ m) (hm2 : m < 16777216)
    (hb1 : 64 ≤ b) (hb2 : b ≤ 190) (hM1 : 8388608 ≤ M) (hM2 : M < 16777216)
    (hlo : (2 * m - 1) * (2 * m - 1) < M * 67108864)
    (hhi : M * 67108864 < (2 * m + 1) * (2 * m + 1)) :
    Binary32.sqrt (Binary32.ofMagnitude false ((2 * b - 127) * 8388608 + M)) =
      Binary32.ofMagnitude false ((b - 1) * 8388608 + m) := by
  have hroot := round_root m (M * 67108864) b hm1 hm2 (by omega) (by omega) (by omega) hlo hhi
  have hey : (Binary32.ofMagnitude false ((2 * b - 127) * 8388608 + M)).exponent.val =
      2 * b - 126 := by
    show ((2 * b - 127) * 8388608 + M) / 8388608 % 256 = 2 * b - 126
    omega
  have hmy : (Binary32.ofMagnitude false ((2 * b - 127) * 8388608 + M)).mantissa.val =
      M - 8388608 := by
    show ((2 * b - 127) * 8388608 + M) % 8388608 = M - 8388608
    omega
  rw [sqrt_normal _ 26 rfl (by rw [hey]; omega) (by rw [hey]; omega)
    (Or.inr ⟨by rw [hey]; omega, rfl⟩), hey, hmy]
  have hn : (8388608 + (M - 8388608)) * 2 ^ 26 = M * 67108864 := by
    have h1 : 8388608 + (M - 8388608) = M := by omega
    rw [h1]
    norm_num
  have he : (((2 * b - 126 : Nat) : Int) - 150 - ((26 : Nat) : Int)) / 2 - 1 =
      (b : Int) - 152 := by omega
  rw [hn, he]
  exact hroot

/-- The square of a finite value that is not a NaN or an infinity is the
rounded product of the significand with itself. -/
theorem mul_self_finite (x : Binary32) (h : x.exponent.val ≠ 255) :
    Binary32.mul x x =
      Binary32.round false (x.significand * x.significand) (x.scale + x.scale) := by
  have hnan : x.isNaN = false := by
    unfold Binary32.isNaN
    simp [h]
  have hinf : x.isInf = false := by
    unfold Binary32.isInf
    simp [h]
  unfold Binary32.mul
  rw [hnan, hinf]
  simp

/-- The square of a zero is the positive zero, and its root is itself. -/
theorem sqrt_mul_self_zero (x : Binary32) (h : x.isZero = true) :
    Binary32.sqrt (Binary32.mul x x) = Binary32.abs x := by
  unfold Binary32.isZero at h
  simp only [Bool.and_eq_true, decide_eq_true_eq] at h
  obtain ⟨he, hm⟩ := h
  have hsig : x.significand = 0 := by
    unfold Binary32.significand
    rw [if_pos he, hm]
  rw [mul_self_finite x (by omega), hsig]
  obtain ⟨s, e, m⟩ := x
  have he2 : e = 0 := Fin.ext he
  have hm2 : m = 0 := Fin.ext hm
  subst he2 hm2
  rfl

/-- The root of the square of a value whose square neither overflows nor
underflows: the bound of half a unit in the last place on the rounded
square leaves its root within a quarter of a unit of the significand. -/
theorem sqrt_mul_self_normal (x : Binary32) (h1 : 64 ≤ x.exponent.val)
    (h2 : x.exponent.val ≤ 190) :
    Binary32.sqrt (Binary32.mul x x) = Binary32.abs x := by
  have hmt : x.mantissa.val < 8388608 := x.mantissa.isLt
  have hsig : x.significand = 8388608 + x.mantissa.val := by
    unfold Binary32.significand
    rw [if_neg (by omega)]
  have hsc : x.scale = (x.exponent.val : Int) - 150 := by
    unfold Binary32.scale
    rw [if_neg (by omega)]
  have habs : Binary32.abs x =
      Binary32.ofMagnitude false
        ((x.exponent.val - 1) * 8388608 + (8388608 + x.mantissa.val)) := by
    obtain ⟨s, e, m⟩ := x
    have h1 : 64 ≤ e.val := h1
    have h2 : e.val ≤ 190 := h2
    have hmt : m.val < 8388608 := m.isLt
    unfold Binary32.abs Binary32.ofMagnitude
    simp only [Binary32.mk.injEq, true_and]
    constructor
    · apply Fin.ext
      show e.val = ((e.val - 1) * 8388608 + (8388608 + m.val)) / 8388608 % 256
      omega
    · apply Fin.ext
      show m.val = ((e.val - 1) * 8388608 + (8388608 + m.val)) % 8388608
      omega
  rw [mul_self_finite x (by omega), hsig, hsc, habs]
  generalize hb : x.exponent.val = b at h1 h2
  generalize hm : 8388608 + x.mantissa.val = m
  have hm1 : 8388608 ≤ m := by omega
  have hm2 : m < 16777216 := by omega
  have hP1 : 8388608 * 8388608 ≤ m * m := Nat.mul_le_mul hm1 hm1
  have hP2 : m * m ≤ 16777215 * 16777215 := Nat.mul_le_mul (by omega) (by omega)
  have hsq1 : (2 * m - 1) * (2 * m - 1) + 4 * m = 4 * (m * m) + 1 := by
    obtain ⟨j, rfl⟩ : ∃ j, m = j + 1 := ⟨m - 1, by omega⟩
    have : 2 * (j + 1) - 1 = 2 * j + 1 := by omega
    rw [this]
    ring
  have hsq2 : (2 * m + 1) * (2 * m + 1) = 4 * (m * m) + 4 * m + 1 := by ring
  have hP3 : m ≤ 8388608 → m * m ≤ 8388608 * 8388608 := fun h => Nat.mul_le_mul h h
  norm_num at hP1 hP2 hP3
  generalize hP : m * m = P at hP1 hP2 hP3 hsq1 hsq2
  by_cases hc : P < 140737488355328
  · have hL : bit_length P = 47 := by
      apply bit_length_eq _ 46
      · have : (2 : Nat) ^ 46 = 70368744177664 := by norm_num
        omega
      · have : (2 : Nat) ^ (46 + 1) = 140737488355328 := by norm_num
        omega
    obtain ⟨ha, hb⟩ := round_shift_23 P
    have hr := round_normal false P (((b : Int) - 150) + ((b : Int) - 150)) 47 (2 * b - 128) hL
      (by omega) (by decide) (by omega) (by
        show (2 * b - 128) * 8388608 + round_shift P 23 < 2139095040
        omega)
    rw [hr]
    show Binary32.sqrt (Binary32.ofMagnitude false
      ((2 * b - 128) * 8388608 + round_shift P 23)) = _
    generalize round_shift P 23 = M at ha hb
    exact sqrt_rounded_square_low m b M hm1 hm2 h1 h2 (by omega) (by omega) (by omega) (by omega)
  · have hL : bit_length P = 48 := by
      apply bit_length_eq _ 47
      · have : (2 : Nat) ^ 47 = 140737488355328 := by norm_num
        omega
      · have : (2 : Nat) ^ (47 + 1) = 281474976710656 := by norm_num
        omega
    obtain ⟨ha, hb⟩ := round_shift_24 P
    have hr := round_normal false P (((b : Int) - 150) + ((b : Int) - 150)) 48 (2 * b - 127) hL
      (by omega) (by decide) (by omega) (by
        show (2 * b - 127) * 8388608 + round_shift P 24 < 2139095040
        omega)
    rw [hr]
    show Binary32.sqrt (Binary32.ofMagnitude false
      ((2 * b - 127) * 8388608 + round_shift P 24)) = _
    generalize round_shift P 24 = M at ha hb
    exact sqrt_rounded_square_high m b M hm1 hm2 h1 h2 (by omega) (by omega) (by omega) (by omega)

/-! ## The sign operations and the root of a square on buffers -/

/-- Two passes of the in-place loop with a function that changes nothing
when applied again leave what the first pass left, whatever the size of the
buffer. -/
theorem unary_op_inplace_twice_idempotent {α : Type} (op : α → α) (a : Mat α)
    (hop : ∀ x, op (op x) = op x) :
    ∃ b, unary_op_inplace op a = some (0, b) ∧ unary_op_inplace op b = some (0, b) := by
  obtain ⟨r, hr, hlen, hget⟩ := unary_op_inplace_spec op a
  obtain ⟨r2, hr2, _, hget2⟩ := unary_op_inplace_spec op { a with data := r }
  refine ⟨{ a with data := r }, hr, ?_⟩
  have h : r2 = r := by
    apply List.ext_getElem?
    intro i
    have h2 := hget2 i
    have h1 := hget i
    simp only [hlen] at h2
    rw [h2]
    by_cases hi : (i : Int) < wrap32 (a.data.length : Int)
    · rw [if_pos hi] at h1 ⊢
      rw [h1]
      cases a.data[i]? with
      | none => rfl
      | some x => simp [hop]
    · rw [if_neg hi]
  rw [hr2, h]

/-- Two passes of the in-place loop with a function that is its own inverse
restore the buffer, whatever its size. -/
theorem unary_op_inplace_twice_involutive {α : Type} (op : α → α) (a : Mat α)
    (hop : ∀ x, op (op x) = x) :
    ∃ b, unary_op_inplace op a = some (0, b) ∧ unary_op_inplace op b = some (0, a) := by
  obtain ⟨r, hr, hlen, hget⟩ := unary_op_inplace_spec op a
  obtain ⟨r2, hr2, _, hget2⟩ := unary_op_inplace_spec op { a with data := r }
  refine ⟨{ a with data := r }, hr, ?_⟩
  have h : r2 = a.data := by
    apply List.ext_getElem?
    intro i
    have h2 := hget2 i
    have h1 := hget i
    simp only [hlen] at h2
    rw [h2]
    by_cases hi : (i : Int) < wrap32 (a.data.length : Int)
    · rw [if_pos hi] at h1 ⊢
      rw [h1]
      cases a.data[i]? with
      | none => rfl
      | some x => simp [hop]
    · rw [if_neg hi, h1, if_neg hi]
  rw [hr2, h]

/-- The function `fabs` applied again changes nothing, for every bit pattern. -/
theorem binary32_abs_abs (x : Binary32) : Binary32.abs (Binary32.abs x) = Binary32.abs x := rfl

/-- The unary minus applied again restores every bit pattern. -/
theorem binary32_neg_neg (x : Binary32) : Binary32.neg (Binary32.neg x) = x := by
  obtain ⟨s, e, m⟩ := x
  cases s <;> rfl

/-- C13: on single-precision buffers, `forward_inplace` with the operation
abs applied a second time returns the buffer the first application left,
for all element values; with the operation neg, the second application
returns the original buffer, for all element values (the finite ones among
them). Both hold for a buffer of any size. -/
theorem sign_operations_twice (k : OperationCodes) (other : MathOps Binary32)
    (self : UnaryOp) (a : Mat Binary32) (hk : k.Distinct) :
    (self.op_type = k.Operation_ABS →
      ∃ b, UnaryOp.forward_inplace k (binary32Ops other) self a = some (0, b) ∧
        UnaryOp.forward_inplace k (binary32Ops other) self b = some (0, b)) ∧
    (self.op_type = k.Operation_NEG →
      ∃ b, UnaryOp.forward_inplace k (binary32Ops other) self a = some (0, b) ∧
        UnaryOp.forward_inplace k (binary32Ops other) self b = some (0, a)) := by
  constructor
  · intro h
    have hd : ∀ t : Mat Binary32, UnaryOp.forward_inplace k (binary32Ops other) self t =
        unary_op_inplace Binary32.abs t :=
      fun t => forward_inplace_dispatch k (binary32Ops other) self t Operation.abs hk h
    obtain ⟨b, h1, h2⟩ := unary_op_inplace_twice_idempotent Binary32.abs a binary32_abs_abs
    exact ⟨b, by rw [hd, h1], by rw [hd, h2]⟩
  · intro h
    have hd : ∀ t : Mat Binary32, UnaryOp.forward_inplace k (binary32Ops other) self t =
        unary_op_inplace Binary32.neg t :=
      fun t => forward_inplace_dispatch k (binary32Ops other) self t Operation.neg hk h
    obtain ⟨b, h1, h2⟩ := unary_op_inplace_twice_involutive Binary32.neg a binary32_neg_neg
    exact ⟨b, by rw [hd, h1], by rw [hd, h2]⟩

/-- Witness for C13: abs twice and neg twice on the buffer
`[-3, -0, 2^64, NaN]`. -/
theorem sign_operations_twice_witness :
    (∃ b, UnaryOp.forward_inplace tableCodes (binary32Ops argumentOps)
          { one_blob_only := true, support_inplace := true, op_type := 0 } signedBuffer =
            some (0, b) ∧
        UnaryOp.forward_inplace tableCodes (binary32Ops argumentOps)
          { one_blob_only := true, support_inplace := true, op_type := 0 } b = some (0, b)) ∧
    (∃ b, UnaryOp.forward_inplace tableCodes (binary32Ops argumentOps)
          { one_blob_only := true, support_inplace := true, op_type := 1 } signedBuffer =
            some (0, b) ∧
        UnaryOp.forward_inplace tableCodes (binary32Ops argumentOps)
          { one_blob_only := true, support_inplace := true, op_type := 1 } b =
            some (0, signedBuffer)) :=
  ⟨(sign_operations_twice tableCodes argumentOps
      { one_blob_only := true, support_inplace := true, op_type := 0 } signedBuffer
      (by decide)).1 rfl,
    (sign_operations_twice tableCodes argumentOps
      { one_blob_only := true, support_inplace := true, op_type := 1 } signedBuffer
      (by decide)).2 rfl⟩

/-- Counterexample to C14: `2^64` is finite, its square overflows to the
positive infinity, whose root is the infinity, not `2^64`. -/
theorem sqrt_square_overflows :
    two_pow_64.isFinite = true ∧
      unary_op_square (binary32Ops argumentOps) two_pow_64 = Binary32.inf false ∧
      unary_op_sqrt (binary32Ops argumentOps)
          (unary_op_square (binary32Ops argumentOps) two_pow_64) = Binary32.inf false ∧
      unary_op_sqrt (binary32Ops argumentOps)
          (unary_op_square (binary32Ops argumentOps) two_pow_64) ≠
        unary_op_abs (binary32Ops argumentOps) two_pow_64 := by
  decide

set_option maxRecDepth 100000 in
/-- The square of a value below `2^-63` is subnormal and loses bits: the
root of the square of `2^-64 * (1 + 2^-23)` is `2^-64 * (1 + 2^-22)`. -/
theorem sqrt_square_underflows :
    unary_op_sqrt (binary32Ops argumentOps)
        (unary_op_square (binary32Ops argumentOps) below_two_pow_minus_63) =
      { sign := false, exponent := 63, mantissa := 2 } ∧
    unary_op_sqrt (binary32Ops argumentOps)
        (unary_op_square (binary32Ops argumentOps) below_two_pow_minus_63) ≠
      unary_op_abs (binary32Ops argumentOps) below_two_pow_minus_63 := by
  decide

/-- C14 (amended): for every single-precision value `x` that is a zero or
has a magnitude from `2^-63` up to, not including, `2^64` (exponent field
from 64 to 190, so that `x * x` neither overflows nor underflows),
`unary_op_sqrt (unary_op_square x)` is `unary_op_abs x`, bit for bit. -/
theorem sqrt_square_eq_abs (other : MathOps Binary32) (x : Binary32)
    (h : x.isZero = true ∨ (64 ≤ x.exponent.val ∧ x.exponent.val ≤ 190)) :
    unary_op_sqrt (binary32Ops other) (unary_op_square (binary32Ops other) x) =
      unary_op_abs (binary32Ops other) x := by
  show Binary32.sqrt (Binary32.mul x x) = Binary32.abs x
  rcases h with h | ⟨h1, h2⟩
  · exact sqrt_mul_self_zero x h
  · exact sqrt_mul_self_normal x h1 h2

/-- Witness for C14: the value `-3`, whose square is 9 and the root of that 3. -/
theorem sqrt_square_eq_abs_witness :
    (minus_three.isZero = true ∨
        (64 ≤ minus_three.exponent.val ∧ minus_three.exponent.val ≤ 190)) ∧
      unary_op_sqrt (binary32Ops argumentOps)
          (unary_op_square (binary32Ops argumentOps) minus_three) =
        unary_op_abs (binary32Ops argumentOps) minus_three :=
  ⟨by decide, sqrt_square_eq_abs argumentOps minus_three (by decide)⟩

end ncnn
